import Mathlib

/-!
Verification of the prompt-storage, backup, import, clipboard and version
logic of the ai-prompt-manager browser extension.

Modelling conventions:
* A JavaScript string is modelled as a `List Char` (`JStr`).  JavaScript
  strings are sequences of UTF-16 code units; for text in the Basic
  Multilingual Plane (all text exercised here) code units and code points
  coincide, so one `Char` per code unit is exact.
* `chrome.storage.sync` is modelled as an association list from keys to
  stored values (`Store`), in insertion order, with unique-key update
  semantics (`storeSet` replaces in place, as a JS object does).
* Fallible operations return their resulting store together with an
  `Option JErr`; a thrown error carries the store as it was at the moment
  of the throw (the code performs no rollback).
-/

abbrev JStr := List Char

/-- Convert a Lean string literal to the `List Char` model of a JS string. -/
def js (s : String) : JStr := s.data

/-- Decimal digit character for `d < 10`. -/
def digitCh (d : Nat) : Char := Char.ofNat (48 + d)

/-- Big-endian decimal digits of `n`, with enough fuel (`n` itself always
suffices, since `n / 10 < n` for positive `n`). -/
def natCharsAux (n : Nat) : Nat → List Char
  | 0 => []
  | fuel + 1 => if n = 0 then [] else natCharsAux (n / 10) fuel ++ [digitCh (n % 10)]

/-- Decimal numeral of a natural number, as produced by JS template
interpolation of a number. -/
def natChars (n : Nat) : JStr :=
  if n = 0 then ['0'] else natCharsAux n n

/-- Value of a list of decimal digit characters (inverse of `natChars`). -/
def charsToNat (l : JStr) : Nat :=
  Nat.ofDigits 10 ((l.map (fun c => c.toNat - 48)).reverse)

/-- Model of `parseInt(s, 10)` restricted to the shapes that occur here:
parses the maximal leading run of decimal digits, `none` (NaN) when there is
none.  (JS `parseInt` additionally skips whitespace and accepts a sign;
signed indices behave as non-array properties downstream, which the
reconstruction never reads, so the `none` result models them adequately.) -/
def parseIntDigits (s : JStr) : Option Nat :=
  let ds := s.takeWhile Char.isDigit
  if ds = [] then none else some (charsToNat ds)

/-- UTF-8 byte length of a string, as computed by `TextEncoder().encode(s).length`. -/
def utf8Len (l : JStr) : Nat := (l.map Char.utf8Size).sum

/-- Lower-case hexadecimal digit. -/
def hexCh (d : Nat) : Char := if d < 10 then digitCh d else Char.ofNat (87 + d)

/-- The escape `JSON.stringify` applies to one character inside a string. -/
def jsonEscapeChar (c : Char) : JStr :=
  if c = '"' then ['\\', '"']
  else if c = '\\' then ['\\', '\\']
  else if c = '\x08' then ['\\', 'b']
  else if c = '\x0c' then ['\\', 'f']
  else if c = '\n' then ['\\', 'n']
  else if c = '\r' then ['\\', 'r']
  else if c = '\t' then ['\\', 't']
  else if c.toNat < 32 then
    ['\\', 'u', '0', '0', hexCh (c.toNat / 16), hexCh (c.toNat % 16)]
  else [c]

/-- `JSON.stringify` of a string value. -/
def jsonOfStr (s : JStr) : JStr := '"' :: (s.flatMap jsonEscapeChar) ++ ['"']

/-- Model of `String.prototype.trim`: strip leading and trailing whitespace.
(The JS whitespace class also contains some exotic code points not used here.) -/
def jsWs (c : Char) : Bool :=
  c = ' ' || c = '\t' || c = '\n' || c = '\r' || c = '\x0b' || c = '\x0c'

def jsTrim (s : JStr) : JStr :=
  ((s.dropWhile jsWs).reverse.dropWhile jsWs).reverse

/-- Lexicographic comparison of JS strings by code unit, the order used by
the `<` and `>` operators on strings. -/
def jsStrLt : JStr → JStr → Bool
  | [], [] => false
  | [], _ :: _ => true
  | _ :: _, [] => false
  | a :: as, b :: bs =>
    if a < b then true else if b < a then false else jsStrLt as bs

/-- Split a string at the first occurrence of `sep`, returning the part
before it and the part after it; `none` when `sep` does not occur. -/
def splitFirst (sep : JStr) : JStr → Option (JStr × JStr)
  | [] => if sep = [] then some ([], []) else none
  | c :: rest =>
    if sep <+: (c :: rest) then some ([], (c :: rest).drop sep.length)
    else
      match splitFirst sep rest with
      | some (pre, post) => some (c :: pre, post)
      | none => none

-- ---------------------------------------------------------------------------
-- storageManager.js
-- ---------------------------------------------------------------------------

/-- A value stored in `chrome.storage.sync`.  Prompt entries are objects
`{id, title, text}` (single item) or `{id, title, chunkCount}` (metadata);
chunk entries are bare strings; anything else is `other`. -/
inductive JVal where
  | str (s : JStr)
  | item (id title text : JStr)
  | meta (id title : JStr) (chunkCount : Nat)
  | other
deriving DecidableEq

abbrev Store := List (JStr × JVal)

/-- Look a key up in the store. -/
def storeGet (σ : Store) (k : JStr) : Option JVal :=
  (σ.find? (fun kv => kv.1 = k)).map (fun kv => kv.2)

/-- `chrome.storage.sync.set` for one key: replace in place, or append. -/
def storeSet : Store → JStr → JVal → Store
  | [], k, v => [(k, v)]
  | (k', v') :: rest, k, v =>
    if k' = k then (k', v) :: rest else (k', v') :: storeSet rest k v

/-- `chrome.storage.sync.remove` for a batch of keys. -/
def storeRemove (σ : Store) (ks : List JStr) : Store :=
  σ.filter (fun kv => ¬ kv.1 ∈ ks)

def PROMPT_KEY_PREFIX : JStr := js "prompt_"

def CHUNK_KEY_SEPARATOR : JStr := js "_chunk_"

def MAX_CHUNK_LENGTH : Nat := 7000

/-- An error raised by the storage layer. -/
inductive JErr where
  | invalidInput
  | singleTooLarge
  | metadataTooLarge
  | chunkTooLarge (i : Nat)
deriving DecidableEq

/-- A storage operation, recorded so that theorems can speak about whether
storage was touched before a failure. -/
inductive StOp where
  | get
  | remove (ks : List JStr)
  | set (k : JStr)
deriving DecidableEq

structure SaveOut where
  store : Store
  err : Option JErr
  trace : List StOp
deriving DecidableEq

/-- A JS value sitting in a field of the argument object: absent, a string,
or some defined non-string value (the only shapes relevant here). -/
inductive JField where
  | undef
  | str (s : JStr)
  | nonStr
deriving DecidableEq

/-- JS truthiness of a field value (`nonStr` stands for a defined,
truthy non-string value). -/
def JField.truthy : JField → Bool
  | .undef => false
  | .str s => !s.isEmpty
  | .nonStr => true

def JField.isStr : JField → Bool
  | .str _ => true
  | _ => false

/-- The argument of `savePrompt`: possibly missing, else an object with
`id`, `title`, `text` fields. -/
inductive PromptArg where
  | missing
  | obj (id title : JField) (text : JField)
deriving DecidableEq

def mkArg (id title text : JStr) : PromptArg := .obj (.str id) (.str title) (.str text)

/-- The validation at the top of `savePrompt`:
`!promptObject || !promptObject.id || !promptObject.title || typeof promptObject.text !== 'string'`. -/
def savePromptInvalid : PromptArg → Bool
  | .missing => true
  | .obj id title text => !id.truthy || !title.truthy || !text.isStr

/-- The chunk list built by
`for (let i = 0; i * MAX_CHUNK_LENGTH < text.length; i++) chunks.push(text.substring(i*MAX, (i+1)*MAX))`. -/
def chunkLoop (text : JStr) (i : Nat) : List JStr :=
  if _h : i * MAX_CHUNK_LENGTH < text.length then
    ((text.drop (i * MAX_CHUNK_LENGTH)).take MAX_CHUNK_LENGTH) :: chunkLoop text (i + 1)
  else []
termination_by text.length - i * MAX_CHUNK_LENGTH
decreasing_by
  have h7 : 0 < MAX_CHUNK_LENGTH := by decide
  have : i * MAX_CHUNK_LENGTH < (i + 1) * MAX_CHUNK_LENGTH := by
    simpa using Nat.mul_lt_mul_of_lt_of_le (Nat.lt_succ_self i) (Nat.le_refl _) h7
  omega

/-- JSON text of the single-item object `{id, title, text}` (property order
follows the object literal). -/
def itemJson (id title text : JStr) : JStr :=
  js "\x7b\"id\":" ++ jsonOfStr id ++ js ",\"title\":" ++ jsonOfStr title
    ++ js ",\"text\":" ++ jsonOfStr text ++ js "\x7d"

/-- JSON text of the chunk metadata object `{id, title, chunkCount}`. -/
def metaJson (id title : JStr) (chunkCount : Nat) : JStr :=
  js "\x7b\"id\":" ++ jsonOfStr id ++ js ",\"title\":" ++ jsonOfStr title
    ++ js ",\"chunkCount\":" ++ natChars chunkCount ++ js "\x7d"

/-- The chunk-writing loop of `savePrompt`: each chunk is byte-checked
against the item ceiling and then written; a failure aborts mid-sequence,
leaving the writes already made in place. -/
def saveChunks (σ : Store) (baseKey : JStr) (tr : List StOp) :
    List JStr → Nat → SaveOut
  | [], _ => ⟨σ, none, tr⟩
  | c :: rest, i =>
    let chunkKey := baseKey ++ CHUNK_KEY_SEPARATOR ++ natChars i
    if (8192 : Int) - chunkKey.length ≤ (utf8Len c : Int) then
      ⟨σ, some (.chunkTooLarge i), tr⟩
    else
      saveChunks (storeSet σ chunkKey (.str c)) baseKey (tr ++ [.set chunkKey]) rest (i + 1)

/-- `savePrompt` of storageManager.js: validate, delete every existing key
that starts with the base key, then save either a single item or metadata
plus chunks, with the byte-size checks of the source. -/
def savePrompt (σ : Store) (p : PromptArg) : SaveOut :=
  if savePromptInvalid p then ⟨σ, some .invalidInput, []⟩
  else
    match p with
    | .missing => ⟨σ, some .invalidInput, []⟩
    | .obj idF titleF textF =>
      let id := match idF with | .str s => s | _ => []
      let title := match titleF with | .str s => s | _ => []
      let text := match textF with | .str s => s | _ => []
      let baseKey := PROMPT_KEY_PREFIX ++ id
      -- cleanup phase: remove every key that starts with the base key
      let keysToRemove := (σ.filter (fun kv => baseKey <+: kv.1)).map (fun kv => kv.1)
      let σ1 := storeRemove σ keysToRemove
      let tr1 : List StOp := if keysToRemove.length > 0 then [.get, .remove keysToRemove] else [.get]
      if text.length ≤ MAX_CHUNK_LENGTH then
        if (8192 : Int) - baseKey.length ≤ (utf8Len (itemJson id title text) : Int) then
          ⟨σ1, some .singleTooLarge, tr1⟩
        else
          ⟨storeSet σ1 baseKey (.item id title text), none, tr1 ++ [.set baseKey]⟩
      else
        let chunks := chunkLoop text 0
        let chunkCount := chunks.length
        if (8192 : Int) - baseKey.length ≤ (utf8Len (metaJson id title chunkCount) : Int) then
          ⟨σ1, some .metadataTooLarge, tr1⟩
        else
          saveChunks (storeSet σ1 baseKey (.meta id title chunkCount)) baseKey
            (tr1 ++ [.set baseKey]) chunks 0

/-- The key predicate of `deletePrompt`: the base key itself, or a key that
starts with the base key followed by the chunk separator. -/
def deleteMatches (baseKey k : JStr) : Prop :=
  k = baseKey ∨ (baseKey ++ CHUNK_KEY_SEPARATOR) <+: k

instance (baseKey k : JStr) : Decidable (deleteMatches baseKey k) := by
  unfold deleteMatches; infer_instance

/-- `deletePrompt` of storageManager.js. -/
def deletePrompt (σ : Store) (promptId : JStr) : Store × Option JErr :=
  if promptId = [] || jsTrim promptId = [] then (σ, some .invalidInput)
  else
    let baseKey := PROMPT_KEY_PREFIX ++ promptId
    let keysToRemove := (σ.filter (fun kv => deleteMatches baseKey kv.1)).map (fun kv => kv.1)
    (storeRemove σ keysToRemove, none)

/-- The destructuring `const [baseKeyWithPrefix, chunkIndexStr] = key.split(CHUNK_KEY_SEPARATOR)`
for a key that contains the separator: the part before the first occurrence,
and the segment between the first and second occurrence (or the end). -/
def chunkSplit (key : JStr) : Option (JStr × JStr) :=
  match splitFirst CHUNK_KEY_SEPARATOR key with
  | none => none
  | some (pre, post) =>
    match splitFirst CHUNK_KEY_SEPARATOR post with
    | some (pre2, _) => some (pre, pre2)
    | none => some (pre, post)

/-- One entry of the reconstruction `Map` of `getAllPrompts`:
the metadata object (if seen) and the sparse chunk array. -/
structure PEntry where
  metadata : Option JVal
  chunks : List (Nat × JVal)
deriving DecidableEq

abbrev PMap := List (JStr × PEntry)

def mapFind (m : PMap) (k : JStr) : Option PEntry :=
  (m.find? (fun kv => kv.1 = k)).map (fun kv => kv.2)

def mapSet : PMap → JStr → PEntry → PMap
  | [], k, v => [(k, v)]
  | (k', v') :: rest, k, v =>
    if k' = k then (k', v) :: rest else (k', v') :: mapSet rest k v

/-- Sparse-array assignment `entry.chunks[chunkIndex] = value`. -/
def setIdx : List (Nat × JVal) → Nat → JVal → List (Nat × JVal)
  | [], i, v => [(i, v)]
  | (j, w) :: rest, i, v =>
    if j = i then (j, v) :: rest else (j, w) :: setIdx rest i v

def chunkAt (l : List (Nat × JVal)) (i : Nat) : Option JVal :=
  (l.find? (fun e => e.1 = i)).map (fun e => e.2)

/-- The object stored at a base key, when it passes
`promptData && typeof promptData === 'object' && promptData.id`:
returns its (truthy, i.e. non-empty) id. -/
def jvalValidId : JVal → Option JStr
  | .item id _ _ => if id = [] then none else some id
  | .meta id _ _ => if id = [] then none else some id
  | _ => none

/-- The first pass of `getAllPrompts` for one stored entry. -/
def firstPassStep (m : PMap) (kv : JStr × JVal) : PMap :=
  if PROMPT_KEY_PREFIX <+: kv.1 then
    match chunkSplit kv.1 with
    | some (baseKey, idxStr) =>
      -- a chunk-shaped key
      match parseIntDigits idxStr with
      | some i =>
        match mapFind m baseKey with
        | some e => mapSet m baseKey ⟨e.metadata, setIdx e.chunks i kv.2⟩
        | none => mapSet m baseKey ⟨none, setIdx [] i kv.2⟩
      | none => m    -- warn: invalid chunk index
    | none =>
      -- a metadata / non-chunked key
      match jvalValidId kv.2 with
      | some _ =>
        match mapFind m kv.1 with
        | some e => mapSet m kv.1 ⟨some kv.2, e.chunks⟩
        | none => mapSet m kv.1 ⟨some kv.2, []⟩
      | none => m    -- warn: invalid prompt data or missing id
  else m

/-- A fully reconstructed prompt. -/
structure Prompt where
  id : JStr
  title : JStr
  text : JStr
deriving DecidableEq

/-- The chunk-concatenation loop: read chunks `i, i+1, …` (`n` of them),
each of which must be a string, and concatenate. -/
def collectFrom (chunks : List (Nat × JVal)) (i : Nat) : Nat → Option JStr
  | 0 => some []
  | n + 1 =>
    match chunkAt chunks i with
    | some (.str s) => (collectFrom chunks (i + 1) n).map (fun t => s ++ t)
    | _ => none

/-- The second pass of `getAllPrompts` for one map entry: chunked
reconstruction when the metadata carries a positive `chunkCount`, direct use
of `text` for a single item, skip otherwise. -/
def reconstructEntry : PEntry → Option Prompt
  | ⟨none, _⟩ => none      -- warn: missing metadata, chunks ignored
  | ⟨some md, chunks⟩ =>
    match md with
    | .meta id title c =>
      if c > 0 then (collectFrom chunks 0 c).map (fun t => ⟨id, title, t⟩)
      else none            -- warn: neither text nor chunkCount
    | .item id title text => some ⟨id, title, text⟩
    | _ => none

/-- `getAllPrompts`, parameterised by the `localeCompare` comparator of the
environment (an `Int`-valued three-way comparison on titles); the final
`Array.prototype.sort` (a stable sort ordered by the comparator's
non-positive relation) is modelled by a stable insertion sort. -/
def getAllPrompts (cmp : JStr → JStr → Int) (σ : Store) : List Prompt :=
  let m := σ.foldl firstPassStep []
  let arr := m.filterMap (fun kv => reconstructEntry kv.2)
  List.insertionSort (fun a b => cmp a.title b.title ≤ 0) arr

-- ---------------------------------------------------------------------------
-- popup-main.js : handleCopyOutputClick plain-text payload
-- ---------------------------------------------------------------------------

/-- The plain-text clipboard payload built by `handleCopyOutputClick`.
`userInner` is the raw `innerText` of the user-input editor (the code trims
it before use); the two booleans are `imageIsVisuallyPresent` and
`canDoAdvancedImageCopy`. -/
def buildPlainTextOutput (selectedSystemPromptText userInner : JStr)
    (imageIsVisuallyPresent canDoAdvancedImageCopy : Bool) : JStr :=
  let userTextContent := jsTrim userInner
  let hasText := userTextContent.length > 0
  let base := js "[[[system prompt begin]]]\n\n" ++ selectedSystemPromptText
      ++ js "\n\n[[[system prompt end]]]"
  let withText :=
    if hasText then
      base ++ js "\n\n\n[[[user input text begin]]]\n\n" ++ userTextContent
        ++ js "\n\n[[[user input text end]]]"
    else base
  if imageIsVisuallyPresent then
    withText ++ js "\n\n\n[[[user input]]]\n\n[Image was present. "
      ++ (if canDoAdvancedImageCopy then js "User pasted an image, check artifacts"
          else js "Image not fully processed for separate copy.")
      ++ js "]\n\n[[[user input end]]]"
  else withText

-- ---------------------------------------------------------------------------
-- modules/version-status.js : isVersionOutdated (identical to
-- VersionChecker.isOutdated of the shared version-checker)
-- ---------------------------------------------------------------------------

/-- The regular expression test for the timestamp version format
`^\d{2}\.\d{2}\.\d{2}\.\d{4}$`. -/
def isTimestampVersion (v : JStr) : Bool :=
  match v with
  | [a, b, '.', c, d, '.', e, f, '.', g, h, i, j] =>
    a.isDigit && b.isDigit && c.isDigit && d.isDigit && e.isDigit && f.isDigit
      && g.isDigit && h.isDigit && i.isDigit && j.isDigit
  | _ => false

/-- Model of JS `Number(s)` restricted to the component shapes produced by
splitting a version string on dots: the empty string converts to `0`, a
run of decimal digits to its value, anything else to NaN (`none`).
(JS `Number` also accepts signs, whitespace, fractions and exponents, none
of which occur in dot-separated version components used here.) -/
def jsNumber (s : JStr) : Option Nat :=
  if s = [] then some 0
  else if s.all Char.isDigit then some (charsToNat s) else none

/-- `version.split('.').map(Number)`. -/
def versionParts (v : JStr) : List (Option Nat) := (v.splitOn '.').map jsNumber

/-- The body of the comparison loop of `isVersionOutdated`, one iteration
per remaining index: `currentParts[i] || 0` turns a missing component, `0`,
or NaN into `0` (NaN is falsy), then the first strictly larger `latest`
component returns true and the first strictly smaller one returns false. -/
def semverGo (cs ls : List (Option Nat)) (i : Nat) : Nat → Bool
  | 0 => false
  | n + 1 =>
    let cp := (cs.getD i none).getD 0
    let lp := (ls.getD i none).getD 0
    if lp > cp then true else if lp < cp then false else semverGo cs ls (i + 1) n

/-- The component-comparison loop
`for (let i = 0; i < Math.max(currentParts.length, latestParts.length); i++)`. -/
def semverLoop (cs ls : List (Option Nat)) : Bool :=
  semverGo cs ls 0 (max cs.length ls.length)

/-- `isVersionOutdated(current, latest)` of modules/version-status.js. -/
def isVersionOutdated (current latest : JStr) : Bool :=
  if isTimestampVersion current || isTimestampVersion latest then
    decide (current ≠ latest) && jsStrLt current latest
  else
    semverLoop (versionParts current) (versionParts latest)

/-- Modelled from the spec: the claimed semantic-versioning comparison on
numeric component lists — compare left to right, a missing trailing
component counts as 0, outdated at the first strictly greater component of
`latest`, not outdated at the first strictly smaller one, not outdated when
all components are equal. -/
def specSemverOutdated : List Nat → List Nat → Bool
  | [], [] => false
  | [], l :: ls => if 0 < l then true else specSemverOutdated [] ls
  | c :: cs, [] => if 0 < c then false else specSemverOutdated cs []
  | c :: cs, l :: ls =>
    if c < l then true else if l < c then false else specSemverOutdated cs ls

/-- The numeric component list of a version string (NaN components are the
ones the code's `|| 0` maps to 0). -/
def versionNums (v : JStr) : List Nat := (versionParts v).map (fun o => o.getD 0)

-- ---------------------------------------------------------------------------
-- modules/backup-manager.js
-- ---------------------------------------------------------------------------

/-- One entry of the backup index `prompt_backups_index`. -/
structure BEntry where
  key : JStr
  timestamp : Nat
  count : Nat
deriving DecidableEq

/-- The relevant slice of `chrome.storage.local`: the value at the index key
(absent or an array) and the snapshot bodies at `prompt_backup_…` keys. -/
structure BackupStore where
  index : Option (List BEntry)
  snaps : List (JStr × List Prompt)
deriving DecidableEq

def MAX_BACKUPS : Nat := 7

/-- `readIndex()`: a missing (or non-array) stored index reads as `[]`. -/
def readIndex (σ : BackupStore) : List BEntry := σ.index.getD []

def snapGet (σ : BackupStore) (k : JStr) : Option (List Prompt) :=
  (σ.snaps.find? (fun kv => kv.1 = k)).map (fun kv => kv.2)

def snapSet : List (JStr × List Prompt) → JStr → List Prompt → List (JStr × List Prompt)
  | [], k, v => [(k, v)]
  | (k', v') :: rest, k, v =>
    if k' = k then (k', v) :: rest else (k', v') :: snapSet rest k v

def snapRemove (snaps : List (JStr × List Prompt)) (ks : List JStr) :
    List (JStr × List Prompt) :=
  snaps.filter (fun kv => ¬ kv.1 ∈ ks)

/-- `simplifyPrompts`: project each prompt to `{id, title, text}`. -/
def simplifyPrompts (ps : List Prompt) : List Prompt :=
  ps.map (fun p => ⟨p.id, p.title, p.text⟩)

/-- `pruneOldBackups(index)` together with its `chrome.storage.local.remove`
side effect on the snapshot bodies: sort a copy descending by timestamp;
with at most `MAX_BACKUPS` entries return the index unchanged, else keep the
first `MAX_BACKUPS`, delete the bodies of the rest, and return the kept
entries normalised ascending by timestamp. -/
def pruneOldBackups (snaps : List (JStr × List Prompt)) (index : List BEntry) :
    List (JStr × List Prompt) × List BEntry :=
  let sorted := List.insertionSort (fun a b => b.timestamp ≤ a.timestamp) index
  if sorted.length ≤ MAX_BACKUPS then (snaps, index)
  else
    let keep := sorted.take MAX_BACKUPS
    let remove := sorted.drop MAX_BACKUPS
    let keysToRemove := remove.map (fun r => r.key)
    (snapRemove snaps keysToRemove,
     List.insertionSort (fun a b => a.timestamp ≤ b.timestamp) keep)

/-- Update the first index entry with the given key in place
(`index.find(e => e.key === key)` followed by field mutation). -/
def updateFirst : List BEntry → JStr → Nat → Nat → List BEntry
  | [], _, _, _ => []
  | e :: rest, key, ts, cnt =>
    if e.key = key then ⟨e.key, ts, cnt⟩ :: rest else e :: updateFirst rest key ts cnt

/-- The index of `backupToday` after the find-and-update-or-push step,
before pruning. -/
def updatedIndex (σ : BackupStore) (count now : Nat) (key : JStr) : List BEntry :=
  let index0 := readIndex σ
  if (index0.find? (fun e => e.key = key)).isSome then updateFirst index0 key now count
  else index0 ++ [⟨key, now, count⟩]

/-- `backupToday(prompts)`, with the current date key and `Date.now()`
passed in as parameters: write the snapshot body, update or push the index
entry, prune, persist the index. -/
def backupToday (σ : BackupStore) (prompts : List Prompt) (now : Nat) (key : JStr) :
    BackupStore × JStr × Nat :=
  let snapshot := simplifyPrompts prompts
  let snaps1 := snapSet σ.snaps key snapshot
  let index1 := updatedIndex σ snapshot.length now key
  let pruned := pruneOldBackups snaps1 index1
  (⟨some pruned.2, pruned.1⟩, key, snapshot.length)

/-- `listBackups()`: the index, newest first. -/
def listBackups (σ : BackupStore) : List BEntry :=
  List.insertionSort (fun a b => b.timestamp ≤ a.timestamp) (readIndex σ)

/-- The result of `restoreBackup`. -/
inductive RestoreRes where
  | cancelled
  | done (saved failed total : Nat)
deriving DecidableEq

/-- The delete loop of `restoreBackup` (individual failures are caught and
ignored; in this model `deletePrompt` leaves the store unchanged on error). -/
def restoreDeleteLoop (σs : Store) : List Prompt → Store
  | [] => σs
  | p :: rest => restoreDeleteLoop (deletePrompt σs p.id).1 rest

/-- The save loop of `restoreBackup`, counting saved and failed prompts. -/
def restoreSaveLoop (σs : Store) : List Prompt → Store × Nat × Nat
  | [] => (σs, 0, 0)
  | p :: rest =>
    let out := savePrompt σs (mkArg p.id p.title p.text)
    match out.err with
    | none =>
      let r := restoreSaveLoop out.store rest
      (r.1, r.2.1 + 1, r.2.2)
    | some _ =>
      let r := restoreSaveLoop out.store rest
      (r.1, r.2.1, r.2.2 + 1)

/-- `restoreBackup(key)`, with the user's answer to the blocking `confirm`
dialog passed in as a parameter.  `none` models the thrown
Selected-backup-not-found error. -/
def restoreBackup (cmp : JStr → JStr → Int) (σl : BackupStore) (σs : Store)
    (key : JStr) (confirmAnswer : Bool) :
    Option (RestoreRes × BackupStore × Store) :=
  match snapGet σl key with
  | none => none
  | some snapshot =>
    let current := getAllPrompts cmp σs
    if ¬ confirmAnswer then some (.cancelled, σl, σs)
    else
      let σs2 := restoreDeleteLoop σs current
      let r := restoreSaveLoop σs2 snapshot
      some (.done r.2.1 r.2.2 snapshot.length, σl, r.1)

/-- A fold of consecutive `backupToday` calls (the per-day simulation of the
spec's 10-day scenario). -/
def simDays (σ : BackupStore) : List (Nat × JStr) → BackupStore
  | [] => σ
  | (n, k) :: rest => simDays (backupToday σ [] n k).1 rest

/-- Ten consecutive distinct-day backups, keyed and timestamped in order. -/
def tenDays : List (Nat × JStr) :=
  [(1, js "prompt_backup_2025-10-01"), (2, js "prompt_backup_2025-10-02"),
   (3, js "prompt_backup_2025-10-03"), (4, js "prompt_backup_2025-10-04"),
   (5, js "prompt_backup_2025-10-05"), (6, js "prompt_backup_2025-10-06"),
   (7, js "prompt_backup_2025-10-07"), (8, js "prompt_backup_2025-10-08"),
   (9, js "prompt_backup_2025-10-09"), (10, js "prompt_backup_2025-10-10")]

/-- The suffix string built by the template literal in the title
de-duplication loop. -/
def mkCand (title : JStr) (n : Nat) : JStr :=
  title ++ (js " (" ++ natChars n ++ js ")")

/-- The body of the while loop
`while (existingTitles.includes(newTitle)) newTitle = title + " (" + titleSuffix++ + ")"`,
with an explicit iteration bound. -/
def dedupGo (existingTitles : List JStr) (title cur : JStr) (suffix : Nat) : Nat → JStr
  | 0 => cur
  | fuel + 1 =>
    if cur ∈ existingTitles then
      dedupGo existingTitles title (mkCand title suffix) (suffix + 1) fuel
    else cur

/-- The title de-duplication of `handleFileImport`; `existingTitles.length + 1`
iterations always reach an unused candidate (`dedupTitle_not_mem`), so the
bound is never hit and the model agrees with the unbounded JS loop. -/
def dedupTitle (existingTitles : List JStr) (title : JStr) : JStr :=
  dedupGo existingTitles title title 2 (existingTitles.length + 1)

/-- The per-entry import loop of `handleFileImport`: de-duplicate the title
against the current title set, generate a fresh id (`idGen` models
`Date.now().toString() + '-' + randomSuffix`), attempt the save; on success
the new title joins the set and the imported count rises, on failure the
entry is skipped and counted.  Returns the final store, the accepted titles
in order, and the imported/skipped counts. -/
def importLoop (σ : Store) (existingTitles : List JStr) (idGen : Nat → JStr) (k : Nat) :
    List (JStr × JStr) → Store × List JStr × Nat × Nat
  | [] => (σ, [], 0, 0)
  | (title, text) :: rest =>
    let newTitle := dedupTitle existingTitles title
    let out := savePrompt σ (mkArg (idGen k) newTitle text)
    match out.err with
    | none =>
      let r := importLoop out.store (existingTitles ++ [newTitle]) idGen (k + 1) rest
      (r.1, newTitle :: r.2.1, r.2.2.1 + 1, r.2.2.2)
    | some _ =>
      let r := importLoop out.store existingTitles idGen (k + 1) rest
      (r.1, r.2.1, r.2.2.1, r.2.2.2 + 1)

/-- Three-way lexicographic comparison of strings by code point. -/
def cmpCp : JStr → JStr → Int
  | [], [] => 0
  | [], _ :: _ => -1
  | _ :: _, [] => 1
  | a :: as, b :: bs =>
    if a.toNat < b.toNat then -1 else if b.toNat < a.toNat then 1 else cmpCp as bs

/-- Modelled from the spec: a concrete stand-in for the environment's
locale-aware `localeCompare` — case-insensitive-leaning comparison, realised
as code-point comparison of lower-cased strings.  It agrees with the
default locale collation on the ASCII titles exercised by the spec's
examples. -/
def cmpCI (a b : JStr) : Int := cmpCp (a.map Char.toLower) (b.map Char.toLower)

def cmpZero : JStr → JStr → Int := fun _ _ => 0

def chunkEntries (baseKey : JStr) : Nat → List JStr → Store
  | _, [] => []
  | i, c :: rest =>
    (baseKey ++ CHUNK_KEY_SEPARATOR ++ natChars i, .str c) :: chunkEntries baseKey (i + 1) rest

def setChunks (ch : List (Nat × JVal)) : Nat → List JStr → List (Nat × JVal)
  | _, [] => ch
  | i, c :: rest => setChunks (setIdx ch i (.str c)) (i + 1) rest

-- ---------------------------------------------------------------------------
-- Theorems
-- ---------------------------------------------------------------------------

theorem listGetD_succ {α : Type} (l : List α) (i : Nat) (d : α) :
    l.getD (i + 1) d = l.tail.getD i d := by
  cases l <;> simp [List.getD]

theorem semverGo_shift (n : Nat) : ∀ (cs ls : List (Option Nat)) (i : Nat),
    semverGo cs ls (i + 1) n = semverGo cs.tail ls.tail i n := by
  induction n with
  | zero => intro cs ls i; rfl
  | succ n ih =>
    intro cs ls i
    simp only [semverGo, listGetD_succ, ih]

theorem semverLoop_eq_spec : ∀ cs ls : List (Option Nat),
    semverLoop cs ls
      = specSemverOutdated (cs.map (fun o => o.getD 0)) (ls.map (fun o => o.getD 0))
  | [], [] => by simp [semverLoop, semverGo, specSemverOutdated]
  | [], l :: ls => by
    have ih := semverLoop_eq_spec [] ls
    simp only [semverLoop, List.length_nil, List.length_cons,
      Nat.max_eq_right (Nat.zero_le _)] at ih ⊢
    simp only [semverGo, List.getD_cons_zero, List.getD_nil, Option.getD_none,
      specSemverOutdated, List.map, semverGo_shift, List.tail_cons, List.tail_nil]
    simp only [List.map_nil] at ih
    simp only [gt_iff_lt, Nat.not_lt_zero, if_false, ih]
  | c :: cs, [] => by
    have ih := semverLoop_eq_spec cs []
    simp only [semverLoop, List.length_nil, List.length_cons,
      Nat.max_eq_left (Nat.zero_le _)] at ih ⊢
    simp only [semverGo, List.getD_cons_zero, List.getD_nil, Option.getD_none,
      specSemverOutdated, List.map, semverGo_shift, List.tail_cons, List.tail_nil]
    simp only [List.map_nil] at ih
    simp only [gt_iff_lt, Nat.not_lt_zero, if_false, ih]
  | c :: cs, l :: ls => by
    have ih := semverLoop_eq_spec cs ls
    simp only [semverLoop, List.length_cons, Nat.succ_max_succ] at ih ⊢
    simp only [semverGo, List.getD_cons_zero, specSemverOutdated, List.map,
      semverGo_shift, List.tail_cons]
    simp only [gt_iff_lt, ih]

theorem specSemverOutdated_self : ∀ xs : List Nat, specSemverOutdated xs xs = false
  | [] => by simp [specSemverOutdated]
  | x :: xs => by
    simp [specSemverOutdated, specSemverOutdated_self xs]

theorem c3_version_comparator :
    ∀ current latest : JStr,
      ((isTimestampVersion current || isTimestampVersion latest) = true →
        isVersionOutdated current latest
          = (decide (current ≠ latest) && jsStrLt current latest))
      ∧ ((isTimestampVersion current || isTimestampVersion latest) = false →
        isVersionOutdated current latest
          = specSemverOutdated (versionNums current) (versionNums latest))
      ∧ isVersionOutdated (js "1.2.0") (js "1.2") = false
      ∧ isVersionOutdated current current = false := by
  intro current latest
  refine ⟨fun h => by simp [isVersionOutdated, h],
          fun h => ?_, by decide, ?_⟩
  · simp only [Bool.or_eq_false_iff] at h
    simp [isVersionOutdated, h.1, h.2, versionNums, semverLoop_eq_spec]
  · by_cases h : isTimestampVersion current = true
    · simp [isVersionOutdated, h]
    · simp only [Bool.not_eq_true] at h
      simp [isVersionOutdated, h, semverLoop_eq_spec, specSemverOutdated_self]

theorem c3_version_comparator_witness :
    isVersionOutdated (js "25.01.01.0000") (js "25.01.02.0000") = true
    ∧ isVersionOutdated (js "1.2.3") (js "1.10.0") = true := by
  constructor
  · have h := (c3_version_comparator (js "25.01.01.0000") (js "25.01.02.0000")).1 (by decide)
    rw [h]; decide
  · have h := (c3_version_comparator (js "1.2.3") (js "1.10.0")).2.1 (by decide)
    rw [h]
    have e : versionNums (js "1.2.3") = [1, 2, 3] := by decide
    have e2 : versionNums (js "1.10.0") = [1, 10, 0] := by decide
    rw [e, e2]
    simp [specSemverOutdated]

set_option maxRecDepth 4000 in
theorem c2_copy_payload_format :
    (∀ selectedSystemPromptText userInner adv,
      buildPlainTextOutput selectedSystemPromptText userInner false adv =
        js "[[[system prompt begin]]]" ++ js "\n\n" ++ selectedSystemPromptText
          ++ js "\n\n" ++ js "[[[system prompt end]]]"
          ++ (if jsTrim userInner ≠ [] then
                js "\n\n\n" ++ js "[[[user input text begin]]]" ++ js "\n\n"
                  ++ jsTrim userInner ++ js "\n\n" ++ js "[[[user input text end]]]"
              else []))
    ∧ buildPlainTextOutput (js "You are helpful.") (js "Hi") false false =
        js "[[[system prompt begin]]]\n\nYou are helpful.\n\n[[[system prompt end]]]\n\n\n[[[user input text begin]]]\n\nHi\n\n[[[user input text end]]]"
    ∧ ¬ (js "[[[user input]]]")
        <:+: buildPlainTextOutput (js "You are helpful.") (js "Hi") false false := by
  refine ⟨?_, by decide, by decide⟩
  intro sys raw adv
  have e1 : js "[[[system prompt begin]]]\n\n"
      = js "[[[system prompt begin]]]" ++ js "\n\n" := by decide
  have e2 : js "\n\n[[[system prompt end]]]"
      = js "\n\n" ++ js "[[[system prompt end]]]" := by decide
  have e3 : js "\n\n\n[[[user input text begin]]]\n\n"
      = js "\n\n\n" ++ js "[[[user input text begin]]]" ++ js "\n\n" := by decide
  have e4 : js "\n\n[[[user input text end]]]"
      = js "\n\n" ++ js "[[[user input text end]]]" := by decide
  by_cases h : jsTrim raw = []
  · simp [buildPlainTextOutput, h, e1, e2, List.append_assoc]
  · have hl : (jsTrim raw).length > 0 := List.length_pos.mpr h
    simp [buildPlainTextOutput, h, hl, e1, e2, e3, e4, List.append_assoc]

theorem storeRemove_map_filter (σ : Store) (b : JStr → Bool) :
    storeRemove σ ((σ.filter (fun kv => b kv.1)).map (fun kv => kv.1))
      = σ.filter (fun kv => !b kv.1) := by
  unfold storeRemove
  apply List.filter_congr
  intro kv hkv
  by_cases hb : b kv.1
  · simp only [hb, Bool.not_true]
    simp only [decide_eq_false_iff_not, Decidable.not_not]
    exact List.mem_map.mpr ⟨kv, List.mem_filter.mpr ⟨hkv, hb⟩, rfl⟩
  · simp only [Bool.not_eq_true] at hb
    simp only [hb, Bool.not_false]
    simp only [decide_eq_true_eq]
    intro hmem
    rcases List.mem_map.mp hmem with ⟨kv', hkv', hkeq⟩
    rcases List.mem_filter.mp hkv' with ⟨_, hb'⟩
    rw [hkeq] at hb'
    simp [hb] at hb'

/-- C4 amended helper: the actual deletion equation of `deletePrompt`. -/
theorem c4_delete_amended :
    ∀ (σ : Store) (id : JStr), jsTrim id ≠ [] →
      deletePrompt σ id
        = (σ.filter (fun kv => ¬ deleteMatches (PROMPT_KEY_PREFIX ++ id) kv.1), none) := by
  intro σ id h
  have hid : id ≠ [] := by
    intro he; exact h (by rw [he]; rfl)
  unfold deletePrompt
  rw [if_neg]
  · have := storeRemove_map_filter σ (fun k => decide (deleteMatches (PROMPT_KEY_PREFIX ++ id) k))
    simp only [this]
    congr 1
    apply List.filter_congr
    intro kv _
    simp [decide_not]
  · simp [hid, h]

theorem c4_delete_amended_witness :
    deletePrompt [(js "prompt_a", JVal.item (js "a") (js "t") (js "x")),
                  (js "other", JVal.other)] (js "a")
      = ([(js "other", JVal.other)], none) := by
  have h := c4_delete_amended
    [(js "prompt_a", JVal.item (js "a") (js "t") (js "x")), (js "other", JVal.other)]
    (js "a") (by decide)
  rw [h]
  decide

theorem c4_delete_counterexample :
    js " " ≠ []
    ∧ deletePrompt [(js "prompt_ ", JVal.item (js " ") (js "t") (js "x"))] (js " ")
        = ([(js "prompt_ ", JVal.item (js " ") (js "t") (js "x"))], some .invalidInput) := by
  constructor
  · decide
  · decide

theorem c8_save_validation :
    ∀ (σ : Store) (p : PromptArg),
      (p = .missing
        ∨ ∃ id title text, p = .obj id title text ∧
            (id = .undef ∨ id = .str [] ∨ title = .undef ∨ title = .str []
              ∨ text.isStr = false)) →
      savePrompt σ p = ⟨σ, some .invalidInput, []⟩ := by
  intro σ p h
  rcases h with h | ⟨id, title, text, rfl, hbad⟩
  · subst h; rfl
  · have hinv : savePromptInvalid (.obj id title text) = true := by
      rcases hbad with rfl | rfl | rfl | rfl | hns <;>
        simp [savePromptInvalid, JField.truthy, JField.isStr, *] <;>
        (right; exact hns)
    unfold savePrompt
    rw [if_pos hinv]

theorem c8_save_validation_witness :
    savePrompt [(js "prompt_a", JVal.item (js "a") (js "t") (js "x"))]
        (.obj (.str (js "a")) (.str []) (.str (js "text")))
      = ⟨[(js "prompt_a", JVal.item (js "a") (js "t") (js "x"))], some .invalidInput, []⟩ :=
  c8_save_validation _ _
    (Or.inr ⟨.str (js "a"), .str [], .str (js "text"), rfl, by simp⟩)

set_option maxRecDepth 2000 in
theorem c10_save_prefix_cleanup :
    storeGet ((savePrompt [] (mkArg (js "12") (js "T2") (js "two"))).store)
        (js "prompt_12") = some (JVal.item (js "12") (js "T2") (js "two"))
    ∧ storeGet ((savePrompt ((savePrompt [] (mkArg (js "12") (js "T2") (js "two"))).store)
          (mkArg (js "1") (js "T1") (js "one"))).store) (js "prompt_12") = none
    ∧ (deletePrompt ((savePrompt [] (mkArg (js "12") (js "T2") (js "two"))).store)
          (js "1")).1
        = (savePrompt [] (mkArg (js "12") (js "T2") (js "two"))).store := by
  refine ⟨by decide, by decide, by decide⟩

theorem snapGet_remove_of_mem (snaps : List (JStr × List Prompt)) (ks : List JStr)
    (k : JStr) (hk : k ∈ ks) :
    (snapRemove snaps ks).find? (fun kv => kv.1 = k) = none := by
  apply List.find?_eq_none.mpr
  intro kv hkv
  rcases List.mem_filter.mp hkv with ⟨_, hpred⟩
  simp only [decide_eq_true_eq] at hpred ⊢
  intro he
  rw [he] at hpred
  exact hpred hk

theorem backupToday_prune_invariant :
    ∀ (σ : BackupStore) (prompts : List Prompt) (now : Nat) (key : JStr)
      (σ' : BackupStore) (idx1 : List BEntry),
      σ' = (backupToday σ prompts now key).1 →
      idx1 = updatedIndex σ (simplifyPrompts prompts).length now key →
      (readIndex σ').length ≤ MAX_BACKUPS
      ∧ ∀ e ∈ idx1, e ∉ readIndex σ' →
          (∀ k ∈ readIndex σ', e.timestamp ≤ k.timestamp) ∧ snapGet σ' e.key = none := by
  intro σ prompts now key σ' idx1 hσ' hidx
  haveI : IsTotal BEntry (fun a b => b.timestamp ≤ a.timestamp) :=
    ⟨fun a b => Nat.le_total b.timestamp a.timestamp⟩
  haveI : IsTrans BEntry (fun a b => b.timestamp ≤ a.timestamp) :=
    ⟨fun _ _ _ h1 h2 => le_trans h2 h1⟩
  subst hσ' hidx
  unfold backupToday pruneOldBackups
  simp only
  set idx1 := updatedIndex σ (simplifyPrompts prompts).length now key with hidx
  set snaps1 := snapSet σ.snaps key (simplifyPrompts prompts) with hsnaps1
  set sorted := List.insertionSort (fun a b => b.timestamp ≤ a.timestamp) idx1 with hsorted
  have hperm : List.Perm sorted idx1 := List.perm_insertionSort _ _
  by_cases hlen : sorted.length ≤ MAX_BACKUPS
  · rw [if_pos hlen]
    constructor
    · simpa [readIndex, hperm.length_eq] using hlen
    · intro e he hnot
      exact absurd he (by simpa [readIndex] using hnot)
  · rw [if_neg hlen]
    set keep := sorted.take MAX_BACKUPS with hkeep
    set remove := sorted.drop MAX_BACKUPS with hremove
    constructor
    · simp only [readIndex, Option.getD_some]
      rw [(List.perm_insertionSort _ _).length_eq, hkeep, List.length_take]
      exact min_le_left _ _
    · intro e he hnot
      have hes : e ∈ sorted := hperm.mem_iff.mpr he
      have henk : e ∉ keep := by
        intro hek
        apply hnot
        simp only [readIndex, Option.getD_some]
        exact (List.mem_insertionSort _).mpr hek
      have hsplit : keep ++ remove = sorted := List.take_append_drop _ _
      have hes2 : e ∈ keep ++ remove := by rw [hsplit]; exact hes
      have her : e ∈ remove := by
        rcases List.mem_append.mp hes2 with h | h
        · exact absurd h henk
        · exact h
      have hpair : List.Pairwise (fun a b => b.timestamp ≤ a.timestamp) sorted :=
        List.sorted_insertionSort _ idx1
      have hsep : ∀ x ∈ keep, ∀ y ∈ remove, y.timestamp ≤ x.timestamp := by
        have := hsplit ▸ hpair
        exact fun x hx y hy => ((List.pairwise_append.mp this).2.2) x hx y hy
      constructor
      · intro k hk
        have hkk : k ∈ keep := by
          simp only [readIndex, Option.getD_some] at hk
          exact (List.mem_insertionSort _).mp hk
        exact hsep k hkk e her
      · have : e.key ∈ remove.map (fun r => r.key) := List.mem_map_of_mem _ her
        simp only [snapGet]
        rw [snapGet_remove_of_mem _ _ _ this]
        rfl

set_option maxRecDepth 10000 in
theorem c5_backup_prune :
    (∀ (σ : BackupStore) (prompts : List Prompt) (now : Nat) (key : JStr)
      (σ' : BackupStore) (idx1 : List BEntry),
      σ' = (backupToday σ prompts now key).1 →
      idx1 = updatedIndex σ (simplifyPrompts prompts).length now key →
      (readIndex σ').length ≤ MAX_BACKUPS
      ∧ ∀ e ∈ idx1, e ∉ readIndex σ' →
          (∀ k ∈ readIndex σ', e.timestamp ≤ k.timestamp) ∧ snapGet σ' e.key = none)
    ∧ listBackups (simDays ⟨none, []⟩ tenDays)
        = [⟨js "prompt_backup_2025-10-10", 10, 0⟩, ⟨js "prompt_backup_2025-10-09", 9, 0⟩,
           ⟨js "prompt_backup_2025-10-08", 8, 0⟩, ⟨js "prompt_backup_2025-10-07", 7, 0⟩,
           ⟨js "prompt_backup_2025-10-06", 6, 0⟩, ⟨js "prompt_backup_2025-10-05", 5, 0⟩,
           ⟨js "prompt_backup_2025-10-04", 4, 0⟩]
    ∧ snapGet (simDays ⟨none, []⟩ tenDays) (js "prompt_backup_2025-10-01") = none
    ∧ snapGet (simDays ⟨none, []⟩ tenDays) (js "prompt_backup_2025-10-02") = none
    ∧ snapGet (simDays ⟨none, []⟩ tenDays) (js "prompt_backup_2025-10-03") = none
    ∧ snapGet (simDays ⟨none, []⟩ tenDays) (js "prompt_backup_2025-10-04") = some [] :=
  ⟨backupToday_prune_invariant, by decide, by decide, by decide, by decide, by decide⟩

theorem c5_backup_prune_witness :
    (readIndex ((backupToday ⟨none, []⟩ [] 5 (js "prompt_backup_2025-10-05")).1)).length
      ≤ MAX_BACKUPS :=
  (c5_backup_prune.1 ⟨none, []⟩ [] 5 (js "prompt_backup_2025-10-05") _ _ rfl rfl).1

theorem digitCh_toNat {d : Nat} (h : d < 10) : (digitCh d).toNat = 48 + d := by
  interval_cases d <;> decide

theorem digitCh_isDigit {d : Nat} (h : d < 10) : (digitCh d).isDigit = true := by
  interval_cases d <;> decide

theorem charsToNat_append_digit (l : JStr) (d : Nat) (h : d < 10) :
    charsToNat (l ++ [digitCh d]) = 10 * charsToNat l + d := by
  unfold charsToNat
  rw [List.map_append, List.reverse_append]
  simp only [List.map_cons, List.map_nil, List.reverse_cons, List.reverse_nil,
    List.nil_append, List.singleton_append]
  rw [Nat.ofDigits_cons]
  rw [digitCh_toNat h]
  omega

theorem charsToNat_natCharsAux : ∀ (fuel n : Nat), n ≤ fuel →
    charsToNat (natCharsAux n fuel) = n := by
  intro fuel
  induction fuel with
  | zero =>
    intro n hn
    have : n = 0 := Nat.le_zero.mp hn
    subst this
    simp [natCharsAux, charsToNat, Nat.ofDigits]
  | succ fuel ih =>
    intro n hn
    by_cases h0 : n = 0
    · subst h0; simp [natCharsAux, charsToNat, Nat.ofDigits]
    · unfold natCharsAux
      rw [if_neg h0]
      rw [charsToNat_append_digit _ _ (Nat.mod_lt _ (by omega))]
      rw [ih (n / 10) (by omega)]
      omega

theorem charsToNat_natChars (n : Nat) : charsToNat (natChars n) = n := by
  unfold natChars
  by_cases h : n = 0
  · subst h; simp; decide
  · rw [if_neg h]; exact charsToNat_natCharsAux n n (le_refl n)

theorem natChars_inj {m n : Nat} (h : natChars m = natChars n) : m = n := by
  have := congrArg charsToNat h
  rwa [charsToNat_natChars, charsToNat_natChars] at this

theorem natCharsAux_digits : ∀ (fuel n : Nat), ∀ c ∈ natCharsAux n fuel, c.isDigit = true := by
  intro fuel
  induction fuel with
  | zero => intro n c hc; simp [natCharsAux] at hc
  | succ fuel ih =>
    intro n c hc
    unfold natCharsAux at hc
    by_cases h0 : n = 0
    · simp [h0] at hc
    · rw [if_neg h0] at hc
      rcases List.mem_append.mp hc with h | h
      · exact ih _ c h
      · rcases List.mem_singleton.mp h with rfl
        exact digitCh_isDigit (Nat.mod_lt _ (by omega))

theorem natChars_digits (n : Nat) : ∀ c ∈ natChars n, c.isDigit = true := by
  intro c hc
  unfold natChars at hc
  by_cases h : n = 0
  · rw [if_pos h] at hc
    rcases List.mem_singleton.mp hc with rfl
    decide
  · rw [if_neg h] at hc
    exact natCharsAux_digits n n c hc

theorem natChars_ne_nil (n : Nat) : natChars n ≠ [] := by
  unfold natChars
  by_cases h : n = 0
  · rw [if_pos h]; simp
  · rw [if_neg h]
    intro he
    have := charsToNat_natCharsAux n n (le_refl n)
    rw [he] at this
    simp [charsToNat, Nat.ofDigits] at this
    exact h this.symm

theorem parseIntDigits_natChars (n : Nat) : parseIntDigits (natChars n) = some n := by
  unfold parseIntDigits
  have hall : (natChars n).takeWhile Char.isDigit = natChars n :=
    List.takeWhile_eq_self_iff.mpr (natChars_digits n)
  simp only [hall]
  rw [if_neg (natChars_ne_nil n)]
  rw [charsToNat_natChars]

theorem mkCand_inj (title : JStr) {m n : Nat} (h : mkCand title m = mkCand title n) :
    m = n := by
  unfold mkCand at h
  have h1 := List.append_cancel_left h
  have h2 := List.append_cancel_right h1
  have h3 := List.append_cancel_left h2
  exact natChars_inj h3

theorem title_ne_mkCand (title : JStr) (k : Nat) : title ≠ mkCand title k := by
  intro h
  have := congrArg List.length h
  simp only [mkCand, List.length_append] at this
  have hpos : 0 < (natChars k).length :=
    List.length_pos.mpr (natChars_ne_nil k)
  simp [js] at this

open Classical in
theorem dedupGo_not_mem :
    ∀ (fuel : Nat) (taken : List JStr) (title cur : JStr) (s : Nat),
      (¬ ∃ k, s ≤ k ∧ cur = mkCand title k) →
      (Finset.filter (fun x => x = cur ∨ ∃ k, s ≤ k ∧ x = mkCand title k)
          taken.toFinset).card < fuel →
      dedupGo taken title cur s fuel ∉ taken := by
  intro fuel
  induction fuel with
  | zero =>
    intro taken title cur s hcur hcard
    omega
  | succ fuel ih =>
    intro taken title cur s hcur hcard
    unfold dedupGo
    by_cases hmem : cur ∈ taken
    · rw [if_pos hmem]
      apply ih
      · rintro ⟨k, hk, he⟩
        have := mkCand_inj title he
        omega
      · have hsub :
            Finset.filter (fun x => x = mkCand title s ∨ ∃ k, s + 1 ≤ k ∧ x = mkCand title k)
                taken.toFinset
              ⊆ Finset.filter (fun x => x = cur ∨ ∃ k, s ≤ k ∧ x = mkCand title k)
                  taken.toFinset := by
          intro x hx
          rcases Finset.mem_filter.mp hx with ⟨hxt, hxp⟩
          apply Finset.mem_filter.mpr
          refine ⟨hxt, Or.inr ?_⟩
          rcases hxp with rfl | ⟨k, hk, rfl⟩
          · exact ⟨s, le_refl s, rfl⟩
          · exact ⟨k, by omega, rfl⟩
        have hcur_in :
            cur ∈ Finset.filter (fun x => x = cur ∨ ∃ k, s ≤ k ∧ x = mkCand title k)
                taken.toFinset :=
          Finset.mem_filter.mpr ⟨List.mem_toFinset.mpr hmem, Or.inl rfl⟩
        have hcur_out :
            cur ∉ Finset.filter (fun x => x = mkCand title s ∨ ∃ k, s + 1 ≤ k ∧ x = mkCand title k)
                taken.toFinset := by
          intro hc
          rcases (Finset.mem_filter.mp hc).2 with he | ⟨k, hk, he⟩
          · exact hcur ⟨s, le_refl s, he⟩
          · exact hcur ⟨k, by omega, he⟩
        have hlt :
            (Finset.filter (fun x => x = mkCand title s ∨ ∃ k, s + 1 ≤ k ∧ x = mkCand title k)
                taken.toFinset).card
              < (Finset.filter (fun x => x = cur ∨ ∃ k, s ≤ k ∧ x = mkCand title k)
                  taken.toFinset).card := by
          apply Finset.card_lt_card
          constructor
          · exact hsub
          · intro hall
            exact hcur_out (hall hcur_in)
        omega
    · rw [if_neg hmem]
      exact hmem

open Classical in
theorem dedupTitle_not_mem (taken : List JStr) (title : JStr) :
    dedupTitle taken title ∉ taken := by
  apply dedupGo_not_mem
  · rintro ⟨k, _, he⟩
    exact title_ne_mkCand title k he
  · calc (Finset.filter
          (fun x => x = title ∨ ∃ k, 2 ≤ k ∧ x = mkCand title k) taken.toFinset).card
        ≤ taken.toFinset.card := Finset.card_filter_le _ _
      _ ≤ taken.length := taken.toFinset_card_le
      _ < taken.length + 1 := Nat.lt_succ_self _

theorem importLoop_titles :
    ∀ (batch : List (JStr × JStr)) (σ : Store) (taken : List JStr)
      (idGen : Nat → JStr) (k : Nat),
      (importLoop σ taken idGen k batch).2.1.Nodup
      ∧ ∀ t ∈ (importLoop σ taken idGen k batch).2.1, t ∉ taken := by
  intro batch
  induction batch with
  | nil => intro σ taken idGen k; exact ⟨List.nodup_nil, by simp [importLoop]⟩
  | cons entry rest ih =>
    intro σ taken idGen k
    obtain ⟨title, text⟩ := entry
    unfold importLoop
    cases herr : (savePrompt σ (mkArg (idGen k) (dedupTitle taken title) text)).err with
    | none =>
      simp only [herr]
      obtain ⟨ihn, ihm⟩ := ih (savePrompt σ (mkArg (idGen k) (dedupTitle taken title) text)).store
        (taken ++ [dedupTitle taken title]) idGen (k + 1)
      constructor
      · refine List.Nodup.cons ?_ ihn
        intro hmem
        have := ihm _ hmem
        simp at this
      · intro t ht
        rcases List.mem_cons.mp ht with rfl | ht'
        · exact dedupTitle_not_mem taken title
        · have := ihm t ht'
          simp only [List.mem_append] at this
          exact fun hc => this (Or.inl hc)
    | some e =>
      simp only [herr]
      exact ih _ taken idGen (k + 1)

set_option maxRecDepth 8000 in
theorem c7_import_dedup :
    (∀ (batch : List (JStr × JStr)) (σ : Store) (existingTitles : List JStr)
      (idGen : Nat → JStr) (k : Nat),
      (importLoop σ existingTitles idGen k batch).2.1.Nodup
      ∧ ∀ t ∈ (importLoop σ existingTitles idGen k batch).2.1, t ∉ existingTitles)
    ∧ (importLoop
        ((savePrompt [] (mkArg (js "1") (js "Summarize") (js "orig"))).store)
        ((getAllPrompts cmpCI
          ((savePrompt [] (mkArg (js "1") (js "Summarize") (js "orig"))).store)).map
            (fun p => p.title))
        (fun k => js "100-" ++ natChars k) 0
        [(js "Summarize", js "t1"), (js "Summarize", js "t2")]).2.1
        = [js "Summarize (2)", js "Summarize (3)"]
    ∧ (getAllPrompts cmpCI
        (importLoop
          ((savePrompt [] (mkArg (js "1") (js "Summarize") (js "orig"))).store)
          ((getAllPrompts cmpCI
            ((savePrompt [] (mkArg (js "1") (js "Summarize") (js "orig"))).store)).map
              (fun p => p.title))
          (fun k => js "100-" ++ natChars k) 0
          [(js "Summarize", js "t1"), (js "Summarize", js "t2")]).1).map (fun p => p.title)
        = [js "Summarize", js "Summarize (2)", js "Summarize (3)"] :=
  ⟨importLoop_titles, by decide, by decide⟩

theorem c7_import_dedup_witness :
    (importLoop [] [js "A"] (fun _ => js "9") 0 [(js "A", js "x")]).2.1.Nodup :=
  (c7_import_dedup.1 [(js "A", js "x")] [] [js "A"] (fun _ => js "9") 0).1

theorem c9_list_ordering :
    (∀ (cmp : JStr → JStr → Int),
      (∀ a b c, cmp a b ≤ 0 → cmp b c ≤ 0 → cmp a c ≤ 0) →
      (∀ a b, cmp a b ≤ 0 ∨ cmp b a ≤ 0) →
      ∀ σ : Store,
        List.Pairwise (fun a b : Prompt => cmp a.title b.title ≤ 0) (getAllPrompts cmp σ))
    ∧ (getAllPrompts cmpCI
        ((savePrompt ((savePrompt ((savePrompt []
            (mkArg (js "1") (js "Zebra") (js "z"))).store)
            (mkArg (js "2") (js "apple") (js "a"))).store)
            (mkArg (js "3") (js "Mango") (js "m"))).store)).map (fun p => p.title)
        = [js "apple", js "Mango", js "Zebra"] := by
  constructor
  · intro cmp htrans htotal σ
    haveI : IsTotal Prompt (fun a b : Prompt => cmp a.title b.title ≤ 0) :=
      ⟨fun a b => htotal a.title b.title⟩
    haveI : IsTrans Prompt (fun a b : Prompt => cmp a.title b.title ≤ 0) :=
      ⟨fun a b c h1 h2 => htrans a.title b.title c.title h1 h2⟩
    exact List.sorted_insertionSort _ _
  · decide

theorem c9_list_ordering_witness :
    List.Pairwise (fun a b : Prompt => cmpZero a.title b.title ≤ 0)
      (getAllPrompts cmpZero [(js "prompt_1", JVal.item (js "1") (js "B") (js "x")),
                              (js "prompt_2", JVal.item (js "2") (js "A") (js "y"))]) :=
  by
  apply c9_list_ordering.1 cmpZero
  · intro a b c h1 h2
    exact le_of_eq rfl
  · intro a b
    left
    exact le_of_eq rfl

theorem c6_restore_cancel :
    ∀ (cmp : JStr → JStr → Int) (σl : BackupStore) (σs : Store) (key : JStr)
      (snap : List Prompt),
      snapGet σl key = some snap →
      restoreBackup cmp σl σs key false = some (.cancelled, σl, σs) := by
  intro cmp σl σs key snap h
  simp [restoreBackup, h]

theorem c6_restore_cancel_witness :
    restoreBackup cmpZero
      ⟨some [⟨js "prompt_backup_2025-10-01", 5, 1⟩],
       [(js "prompt_backup_2025-10-01", [⟨js "1", js "T", js "x"⟩])]⟩
      [(js "prompt_1", JVal.item (js "1") (js "Old") (js "y"))]
      (js "prompt_backup_2025-10-01") false
    = some (.cancelled,
       ⟨some [⟨js "prompt_backup_2025-10-01", 5, 1⟩],
        [(js "prompt_backup_2025-10-01", [⟨js "1", js "T", js "x"⟩])]⟩,
       [(js "prompt_1", JVal.item (js "1") (js "Old") (js "y"))]) :=
  c6_restore_cancel cmpZero _ _ _ [⟨js "1", js "T", js "x"⟩] (by decide)

theorem chunkLoop_flatten : ∀ (text : JStr) (i : Nat),
    (chunkLoop text i).flatten = text.drop (i * MAX_CHUNK_LENGTH) := by
  intro text i
  induction i using chunkLoop.induct text with
  | case1 i h ih =>
    rw [chunkLoop]
    simp only [dif_pos h, List.flatten_cons]
    rw [ih]
    have he : (i + 1) * MAX_CHUNK_LENGTH = i * MAX_CHUNK_LENGTH + MAX_CHUNK_LENGTH := by ring
    rw [he, ← List.drop_drop]
    exact List.take_append_drop _ _
  | case2 i h =>
    rw [chunkLoop]
    simp only [dif_neg h, List.flatten_nil]
    rw [List.drop_eq_nil_of_le (by omega)]

theorem chunkLoop_length_le : ∀ (text : JStr) (i : Nat),
    ∀ c ∈ chunkLoop text i, c.length ≤ MAX_CHUNK_LENGTH := by
  intro text i
  induction i using chunkLoop.induct text with
  | case1 i h ih =>
    intro c hc
    rw [chunkLoop] at hc
    simp only [dif_pos h, List.mem_cons] at hc
    rcases hc with rfl | hc
    · exact le_trans (List.length_take_le _ _) (le_refl _)
    · exact ih c hc
  | case2 i h =>
    intro c hc
    rw [chunkLoop] at hc
    simp [dif_neg h] at hc

theorem chunkLoop_ne_nil (text : JStr) (h : 0 < text.length) : chunkLoop text 0 ≠ [] := by
  rw [chunkLoop]
  simp only [Nat.zero_mul, dif_pos h]
  simp

theorem utf8Len_replicate (n : Nat) (c : Char) :
    utf8Len (List.replicate n c) = n * c.utf8Size := by
  unfold utf8Len
  rw [List.map_replicate, List.sum_replicate, smul_eq_mul]

theorem splitFirst_sound : ∀ (s sep pre post : JStr),
    splitFirst sep s = some (pre, post) → s = pre ++ sep ++ post := by
  intro s
  induction s with
  | nil =>
    intro sep pre post h
    unfold splitFirst at h
    by_cases hs : sep = []
    · rw [if_pos hs] at h
      injection h with h'
      injection h'
      subst hs
      simp_all
    · rw [if_neg hs] at h
      exact absurd h (by simp)
  | cons c rest ih =>
    intro sep pre post h
    unfold splitFirst at h
    by_cases hp : sep <+: (c :: rest)
    · rw [if_pos hp] at h
      injection h with h'
      obtain ⟨t, ht⟩ := hp
      have hpre : pre = [] := by
        have := congrArg Prod.fst h'
        simpa using this.symm
      have hpost : post = (c :: rest).drop sep.length := by
        have := congrArg Prod.snd h'
        simpa using this.symm
      subst hpre
      rw [hpost, ← ht, List.nil_append, List.drop_left]
    · rw [if_neg hp] at h
      cases hsp : splitFirst sep rest with
      | none => rw [hsp] at h; exact absurd h (by simp)
      | some pr =>
        rw [hsp] at h
        obtain ⟨pre', post'⟩ := pr
        injection h with h'
        have h1 : pre = c :: pre' := by
          have := congrArg Prod.fst h'
          simpa using this.symm
        have h2 : post = post' := by
          have := congrArg Prod.snd h'
          simpa using this.symm
        subst h1 h2
        have := ih sep pre' post hsp
        rw [List.cons_append, List.cons_append, ← this]

theorem splitFirst_none_of_no_occ : ∀ (s sep : JStr),
    ¬ (sep <:+: s) → splitFirst sep s = none := by
  intro s
  induction s with
  | nil =>
    intro sep h
    unfold splitFirst
    rw [if_neg]
    intro he
    subst he
    exact h List.nil_infix
  | cons c rest ih =>
    intro sep h
    unfold splitFirst
    rw [if_neg (fun hp => h hp.isInfix)]
    rw [ih sep (fun hi => h (List.infix_cons hi))]

theorem splitFirst_append_of_no_early :
    ∀ (b sep d : JStr), sep ≠ [] →
      (∀ b2, b2 ≠ [] → b2 <:+ b → ¬ sep <+: (b2 ++ (sep ++ d))) →
      splitFirst sep (b ++ (sep ++ d)) = some (b, d) := by
  intro b
  induction b with
  | nil =>
    intro sep d hne _
    cases sep with
    | nil => exact absurd rfl hne
    | cons c cs =>
      simp only [List.nil_append, List.cons_append]
      unfold splitFirst
      rw [if_pos (by rw [← List.cons_append]; exact List.prefix_append _ _)]
      rw [show List.drop (c :: cs).length (c :: (cs ++ d)) = d from
        by rw [← List.cons_append]; exact List.drop_left _ _]
  | cons x b' ih =>
    intro sep d hne hno
    have hx : ¬ sep <+: ((x :: b') ++ (sep ++ d)) :=
      hno (x :: b') (by simp) (List.suffix_refl _)
    cases sep with
    | nil => exact absurd rfl hne
    | cons c cs =>
      simp only [List.cons_append]
      unfold splitFirst
      rw [if_neg (by simpa using hx)]
      have hrec := ih (c :: cs) d hne
        (fun b2 h1 h2 => hno b2 h1 (h2.trans (List.suffix_cons x b')))
      simp only [List.cons_append] at hrec
      rw [hrec]

theorem eq_take_of_append_eq {sep t b2 X : JStr} (k : Nat)
    (h : sep ++ t = b2 ++ X) (hk : k = b2.length) (hks : k ≤ sep.length) :
    b2 = sep.take k := by
  have h2 := congrArg (List.take k) h
  rw [List.take_append_eq_append_take, List.take_append_eq_append_take] at h2
  rw [Nat.sub_eq_zero_of_le hks] at h2
  rw [hk, Nat.sub_self, List.take_zero, List.take_zero, List.take_length,
    List.append_nil, List.append_nil] at h2
  rw [← hk] at h2
  exact h2.symm

theorem no_early_of_conditions (b d : JStr)
    (hinf : ¬ CHUNK_KEY_SEPARATOR <:+: b)
    (hsuf : ¬ js "_chunk" <:+ b) :
    ∀ b2, b2 ≠ [] → b2 <:+ b →
      ¬ CHUNK_KEY_SEPARATOR <+: (b2 ++ (CHUNK_KEY_SEPARATOR ++ d)) := by
  intro b2 hne hsufb2 hpre
  obtain ⟨t, ht⟩ := hpre
  by_cases hk : CHUNK_KEY_SEPARATOR.length ≤ b2.length
  · -- the separator would be a prefix of b2, hence an infix of b
    have hsep : CHUNK_KEY_SEPARATOR = b2.take CHUNK_KEY_SEPARATOR.length := by
      have h2 := congrArg (List.take CHUNK_KEY_SEPARATOR.length) ht
      rw [List.take_append_eq_append_take, List.take_append_eq_append_take] at h2
      rw [Nat.sub_self, List.take_zero, List.append_nil, List.take_length,
        Nat.sub_eq_zero_of_le hk, List.take_zero, List.append_nil] at h2
      exact h2
    have hpb : CHUNK_KEY_SEPARATOR <+: b2 := by
      rw [hsep]; exact List.take_prefix _ _
    exact hinf (hpb.isInfix.trans hsufb2.isInfix)
  · push_neg at hk
    have hk1 : 1 ≤ b2.length := List.length_pos.mpr hne
    have hb2 : b2 = CHUNK_KEY_SEPARATOR.take b2.length :=
      eq_take_of_append_eq b2.length ht rfl (by omega)
    have hmid : CHUNK_KEY_SEPARATOR.drop b2.length ++ t
        = CHUNK_KEY_SEPARATOR ++ d := by
      have h3 : CHUNK_KEY_SEPARATOR.take b2.length
            ++ (CHUNK_KEY_SEPARATOR.drop b2.length ++ t)
          = CHUNK_KEY_SEPARATOR.take b2.length ++ (CHUNK_KEY_SEPARATOR ++ d) := by
        rw [← List.append_assoc, List.take_append_drop, ht, ← hb2]
      exact List.append_cancel_left h3
    have hdrop : CHUNK_KEY_SEPARATOR.drop b2.length
        = CHUNK_KEY_SEPARATOR.take (CHUNK_KEY_SEPARATOR.length - b2.length) := by
      have hpre2 : CHUNK_KEY_SEPARATOR.drop b2.length <+: CHUNK_KEY_SEPARATOR ++ d :=
        ⟨t, hmid⟩
      have h4 := List.prefix_iff_eq_take.mp hpre2
      rw [List.length_drop] at h4
      rw [List.take_append_eq_append_take,
        Nat.sub_eq_zero_of_le (Nat.sub_le _ _), List.take_zero, List.append_nil] at h4
      exact h4
    have hsl : CHUNK_KEY_SEPARATOR.length = 7 := by decide
    have hcase : b2.length = 1 ∨ b2.length = 2 ∨ b2.length = 3 ∨ b2.length = 4
        ∨ b2.length = 5 ∨ b2.length = 6 := by omega
    rcases hcase with he | he | he | he | he | he <;> rw [he] at hdrop hb2
    · exact absurd hdrop (by decide)
    · exact absurd hdrop (by decide)
    · exact absurd hdrop (by decide)
    · exact absurd hdrop (by decide)
    · exact absurd hdrop (by decide)
    · have : b2 = js "_chunk" := by rw [hb2]; decide
      rw [this] at hsufb2
      exact hsuf hsufb2

theorem chunkSplit_none_of_no_occ (b : JStr) (hinf : ¬ CHUNK_KEY_SEPARATOR <:+: b) :
    chunkSplit b = none := by
  unfold chunkSplit
  rw [splitFirst_none_of_no_occ b _ hinf]

theorem sep_not_infix_natChars (i : Nat) : ¬ CHUNK_KEY_SEPARATOR <:+: natChars i := by
  intro h
  have hmem : '_' ∈ natChars i := h.subset (by decide)
  exact absurd (natChars_digits i '_' hmem) (by decide)

theorem chunkSplit_chunkKey (b : JStr) (i : Nat)
    (hinf : ¬ CHUNK_KEY_SEPARATOR <:+: b) (hsuf : ¬ js "_chunk" <:+ b) :
    chunkSplit (b ++ CHUNK_KEY_SEPARATOR ++ natChars i) = some (b, natChars i) := by
  have h1 : splitFirst CHUNK_KEY_SEPARATOR (b ++ (CHUNK_KEY_SEPARATOR ++ natChars i))
      = some (b, natChars i) :=
    splitFirst_append_of_no_early b _ _ (by decide)
      (no_early_of_conditions b (natChars i) hinf hsuf)
  unfold chunkSplit
  rw [List.append_assoc, h1]
  simp only [splitFirst_none_of_no_occ (natChars i) CHUNK_KEY_SEPARATOR
    (sep_not_infix_natChars i)]

theorem storeSet_fresh : ∀ (σ : Store) (k : JStr) (v : JVal),
    (∀ kv ∈ σ, kv.1 ≠ k) → storeSet σ k v = σ ++ [(k, v)] := by
  intro σ
  induction σ with
  | nil => intro k v _; rfl
  | cons kv rest ih =>
    intro k v h
    obtain ⟨k', v'⟩ := kv
    unfold storeSet
    rw [if_neg (h (k', v') (List.mem_cons_self _ _))]
    rw [ih k v (fun kv hkv => h kv (List.mem_cons_of_mem _ hkv))]
    rfl

theorem mapFind_eq_none_iff (m : PMap) (k : JStr) :
    mapFind m k = none ↔ ∀ kv ∈ m, kv.1 ≠ k := by
  unfold mapFind
  rw [Option.map_eq_none']
  rw [List.find?_eq_none]
  constructor
  · intro h kv hkv
    have := h kv hkv
    simpa using this
  · intro h kv hkv
    simpa using h kv hkv

theorem mapSet_fresh : ∀ (m : PMap) (k : JStr) (e : PEntry),
    mapFind m k = none → mapSet m k e = m ++ [(k, e)] := by
  intro m
  induction m with
  | nil => intro k e _; rfl
  | cons kv rest ih =>
    intro k e h
    rw [mapFind_eq_none_iff] at h
    obtain ⟨k', e'⟩ := kv
    unfold mapSet
    rw [if_neg (h (k', e') (List.mem_cons_self _ _))]
    rw [ih k e ((mapFind_eq_none_iff _ _).mpr (fun kv hkv => h kv (List.mem_cons_of_mem _ hkv)))]
    rfl

theorem mapFind_append_last (m : PMap) (k : JStr) (e : PEntry)
    (h : mapFind m k = none) : mapFind (m ++ [(k, e)]) k = some e := by
  unfold mapFind at h ⊢
  rw [List.find?_append]
  rw [Option.map_eq_none'] at h
  rw [h]
  simp [List.find?]

theorem mapSet_append_last : ∀ (m : PMap) (k : JStr) (e e' : PEntry),
    mapFind m k = none → mapSet (m ++ [(k, e)]) k e' = m ++ [(k, e')] := by
  intro m
  induction m with
  | nil =>
    intro k e e' _
    simp [mapSet]
  | cons kv rest ih =>
    intro k e e' h
    rw [mapFind_eq_none_iff] at h
    obtain ⟨k', v'⟩ := kv
    simp only [List.cons_append]
    unfold mapSet
    rw [if_neg (h (k', v') (List.mem_cons_self _ _))]
    rw [ih k e e' ((mapFind_eq_none_iff _ _).mpr (fun kv hkv => h kv (List.mem_cons_of_mem _ hkv)))]

theorem chunkAt_setIdx_self : ∀ (l : List (Nat × JVal)) (i : Nat) (v : JVal),
    chunkAt (setIdx l i v) i = some v := by
  intro l
  induction l with
  | nil => intro i v; simp [setIdx, chunkAt, List.find?]
  | cons e rest ih =>
    intro i v
    obtain ⟨j, w⟩ := e
    unfold setIdx
    by_cases hj : j = i
    · rw [if_pos hj]
      simp [chunkAt, List.find?, hj]
    · rw [if_neg hj]
      unfold chunkAt at ih ⊢
      simp only [List.find?]
      rw [decide_eq_false hj]
      exact ih i v

theorem chunkAt_setIdx_ne : ∀ (l : List (Nat × JVal)) (i j : Nat) (v : JVal),
    j ≠ i → chunkAt (setIdx l i v) j = chunkAt l j := by
  intro l
  induction l with
  | nil =>
    intro i j v hne
    simp only [setIdx, chunkAt, List.find?]
    rw [decide_eq_false (fun h : i = j => hne h.symm)]
  | cons e rest ih =>
    intro i j v hne
    obtain ⟨j', w⟩ := e
    unfold setIdx
    by_cases hj : j' = i
    · rw [if_pos hj]
      unfold chunkAt
      simp only [List.find?]
      rw [decide_eq_false (fun h : j' = j => hne (hj ▸ h ▸ rfl))]
    · rw [if_neg hj]
      unfold chunkAt at ih ⊢
      simp only [List.find?]
      by_cases hjj : j' = j
      · rw [decide_eq_true hjj]
      · rw [decide_eq_false hjj]
        exact ih i j v hne

theorem mapFind_mapSet_ne : ∀ (m : PMap) (k k' : JStr) (e : PEntry),
    k' ≠ k → mapFind (mapSet m k e) k' = mapFind m k' := by
  intro m
  induction m with
  | nil =>
    intro k k' e hne
    simp only [mapSet, mapFind, List.find?]
    rw [decide_eq_false (fun h : k = k' => hne h.symm)]
  | cons kv rest ih =>
    intro k k' e hne
    obtain ⟨k0, e0⟩ := kv
    unfold mapSet
    by_cases hk : k0 = k
    · rw [if_pos hk]
      unfold mapFind
      simp only [List.find?]
      rw [decide_eq_false (fun h : k0 = k' => hne (hk ▸ h ▸ rfl))]
    · rw [if_neg hk]
      unfold mapFind at ih ⊢
      simp only [List.find?]
      by_cases hk' : k0 = k'
      · rw [decide_eq_true hk']
      · rw [decide_eq_false hk']
        exact ih k k' e hne

theorem chunkSplit_some_key (key pre idxStr : JStr)
    (h : chunkSplit key = some (pre, idxStr)) :
    ∃ post, key = pre ++ CHUNK_KEY_SEPARATOR ++ post := by
  unfold chunkSplit at h
  cases hsp : splitFirst CHUNK_KEY_SEPARATOR key with
  | none => rw [hsp] at h; exact absurd h (by simp)
  | some pr =>
    obtain ⟨p, post0⟩ := pr
    rw [hsp] at h
    dsimp only at h
    have hkey := splitFirst_sound key _ p post0 hsp
    have hp : pre = p := by
      cases hsp2 : splitFirst CHUNK_KEY_SEPARATOR post0 with
      | none =>
        rw [hsp2] at h
        simp only [Option.some_inj, Prod.mk.injEq] at h
        exact h.1.symm
      | some pr2 =>
        obtain ⟨p2, q2⟩ := pr2
        rw [hsp2] at h
        simp only [Option.some_inj, Prod.mk.injEq] at h
        exact h.1.symm
    exact ⟨post0, hp ▸ hkey⟩

theorem firstPassStep_preserves_none (m : PMap) (b : JStr) (kv : JStr × JVal)
    (hm : mapFind m b = none) (hkv : ¬ b <+: kv.1) :
    mapFind (firstPassStep m kv) b = none := by
  unfold firstPassStep
  by_cases hpk : PROMPT_KEY_PREFIX <+: kv.1
  · rw [if_pos hpk]
    cases hcs : chunkSplit kv.1 with
    | some pr =>
      obtain ⟨pre, idxStr⟩ := pr
      have hpre_ne : pre ≠ b := by
        intro he
        obtain ⟨post, hkey⟩ := chunkSplit_some_key kv.1 pre idxStr hcs
        apply hkv
        rw [hkey, he, List.append_assoc]
        exact List.prefix_append _ _
      cases hpi : parseIntDigits idxStr with
      | some i =>
        cases hmf : mapFind m pre with
        | some e =>
          dsimp only
          rw [hpi, hmf]
          dsimp only
          rw [mapFind_mapSet_ne m pre b _ (fun h => hpre_ne h.symm)]
          exact hm
        | none =>
          dsimp only
          rw [hpi, hmf]
          dsimp only
          rw [mapFind_mapSet_ne m pre b _ (fun h => hpre_ne h.symm)]
          exact hm
      | none =>
        dsimp only
        rw [hpi]
        dsimp only
        exact hm
    | none =>
      have hkne : kv.1 ≠ b := fun he => hkv (he ▸ List.prefix_refl _)
      cases hvi : jvalValidId kv.2 with
      | some idv =>
        cases hmf : mapFind m kv.1 with
        | some e =>
          rw [mapFind_mapSet_ne m kv.1 b _ (fun h => hkne h.symm)]
          exact hm
        | none =>
          rw [mapFind_mapSet_ne m kv.1 b _ (fun h => hkne h.symm)]
          exact hm
      | none => exact hm
  · rw [if_neg hpk]
    exact hm

theorem foldl_firstPass_none : ∀ (entries : Store) (m : PMap) (b : JStr),
    mapFind m b = none → (∀ kv ∈ entries, ¬ b <+: kv.1) →
    mapFind (entries.foldl firstPassStep m) b = none := by
  intro entries
  induction entries with
  | nil => intro m b hm _; exact hm
  | cons kv rest ih =>
    intro m b hm hall
    simp only [List.foldl_cons]
    exact ih _ b
      (firstPassStep_preserves_none m b kv hm (hall kv (List.mem_cons_self _ _)))
      (fun kv' hkv' => hall kv' (List.mem_cons_of_mem _ hkv'))

theorem firstPass_meta_step (M : PMap) (b id title : JStr) (cnt : Nat)
    (hM : mapFind M b = none) (hpre : PROMPT_KEY_PREFIX <+: b)
    (hinf : ¬ CHUNK_KEY_SEPARATOR <:+: b) (hid : id ≠ []) :
    firstPassStep M (b, .meta id title cnt)
      = M ++ [(b, ⟨some (.meta id title cnt), []⟩)] := by
  unfold firstPassStep
  rw [if_pos hpre]
  rw [chunkSplit_none_of_no_occ b hinf]
  dsimp only
  have hvi : jvalValidId (.meta id title cnt) = some id := by
    simp only [jvalValidId]
    rw [if_neg hid]
  rw [hvi]
  dsimp only
  rw [hM]
  dsimp only
  exact mapSet_fresh M b _ hM

theorem foldl_chunkEntries_step :
    ∀ (cs : List JStr) (i : Nat) (M : PMap) (b : JStr) (md : JVal)
      (ch : List (Nat × JVal)),
      mapFind M b = none →
      PROMPT_KEY_PREFIX <+: b →
      ¬ CHUNK_KEY_SEPARATOR <:+: b → ¬ js "_chunk" <:+ b →
      (chunkEntries b i cs).foldl firstPassStep (M ++ [(b, ⟨some md, ch⟩)])
        = M ++ [(b, ⟨some md, setChunks ch i cs⟩)] := by
  intro cs
  induction cs with
  | nil => intro i M b md ch _ _ _ _; rfl
  | cons c rest ih =>
    intro i M b md ch hM hpre hinf hsuf
    simp only [chunkEntries, List.foldl_cons]
    have hstep : firstPassStep (M ++ [(b, ⟨some md, ch⟩)])
        (b ++ CHUNK_KEY_SEPARATOR ++ natChars i, .str c)
        = M ++ [(b, ⟨some md, setIdx ch i (.str c)⟩)] := by
      unfold firstPassStep
      rw [if_pos]
      · rw [chunkSplit_chunkKey b i hinf hsuf]
        dsimp only
        rw [parseIntDigits_natChars i]
        dsimp only
        rw [mapFind_append_last M b _ hM]
        dsimp only
        exact mapSet_append_last M b _ _ hM
      · exact hpre.trans ((List.prefix_append b CHUNK_KEY_SEPARATOR).trans
          (List.prefix_append (b ++ CHUNK_KEY_SEPARATOR) (natChars i)))
    rw [hstep]
    exact ih (i + 1) M b md (setIdx ch i (.str c)) hM hpre hinf hsuf

theorem chunkAt_setChunks_lt : ∀ (cs : List JStr) (i : Nat) (ch : List (Nat × JVal))
    (j : Nat), j < i → chunkAt (setChunks ch i cs) j = chunkAt ch j := by
  intro cs
  induction cs with
  | nil => intro i ch j _; rfl
  | cons c rest ih =>
    intro i ch j hj
    simp only [setChunks]
    rw [ih (i + 1) _ j (by omega)]
    exact chunkAt_setIdx_ne ch i j _ (by omega)

theorem chunkAt_setChunks_get : ∀ (cs : List JStr) (i : Nat) (ch : List (Nat × JVal))
    (j : Nat) (h : j < cs.length),
    chunkAt (setChunks ch i cs) (i + j) = some (.str (cs.get ⟨j, h⟩)) := by
  intro cs
  induction cs with
  | nil => intro i ch j h; exact absurd h (by simp)
  | cons c rest ih =>
    intro i ch j h
    simp only [setChunks]
    cases j with
    | zero =>
      simp only [Nat.add_zero]
      rw [chunkAt_setChunks_lt rest (i + 1) _ i (by omega)]
      rw [chunkAt_setIdx_self]
      rfl
    | succ j' =>
      have hj' : j' < rest.length := by simpa using h
      have he : i + (j' + 1) = (i + 1) + j' := by omega
      rw [he]
      rw [ih (i + 1) _ j' hj']
      rfl

theorem collectFrom_eq : ∀ (cs : List JStr) (ch : List (Nat × JVal)) (i : Nat),
    (∀ j (h : j < cs.length), chunkAt ch (i + j) = some (.str (cs.get ⟨j, h⟩))) →
    collectFrom ch i cs.length = some cs.flatten := by
  intro cs
  induction cs with
  | nil => intro ch i _; rfl
  | cons c rest ih =>
    intro ch i hall
    simp only [List.length_cons, collectFrom]
    have h0 := hall 0 (by simp)
    rw [Nat.add_zero] at h0
    rw [h0]
    dsimp only
    rw [ih ch (i + 1) (fun j hj => by
      have := hall (j + 1) (by simpa using hj)
      rwa [show i + (j + 1) = (i + 1) + j from by omega] at this)]
    rfl

theorem chunkKey_ne_of_ne {b : JStr} {i j : Nat} (hne : i ≠ j) :
    b ++ CHUNK_KEY_SEPARATOR ++ natChars i ≠ b ++ CHUNK_KEY_SEPARATOR ++ natChars j := by
  intro h
  exact hne (natChars_inj (List.append_cancel_left h))

theorem saveChunks_ok : ∀ (cs : List JStr) (σ : Store) (b : JStr) (tr : List StOp)
    (i : Nat),
    (∀ kv ∈ σ, ∀ j, i ≤ j → kv.1 ≠ b ++ CHUNK_KEY_SEPARATOR ++ natChars j) →
    (saveChunks σ b tr cs i).err = none →
    (saveChunks σ b tr cs i).store = σ ++ chunkEntries b i cs := by
  intro cs
  induction cs with
  | nil => intro σ b tr i _ _; simp [saveChunks, chunkEntries]
  | cons c rest ih =>
    intro σ b tr i hfresh herr
    unfold saveChunks at herr ⊢
    by_cases hbig : (8192 : Int) - (b ++ CHUNK_KEY_SEPARATOR ++ natChars i).length
        ≤ (utf8Len c : Int)
    · rw [if_pos hbig] at herr
      exact absurd herr (by simp)
    · rw [if_neg hbig] at herr ⊢
      have hset : storeSet σ (b ++ CHUNK_KEY_SEPARATOR ++ natChars i) (.str c)
          = σ ++ [(b ++ CHUNK_KEY_SEPARATOR ++ natChars i, .str c)] :=
        storeSet_fresh σ _ _ (fun kv hkv => hfresh kv hkv i (le_refl i))
      rw [hset] at herr ⊢
      rw [ih _ b _ (i + 1) ?hf herr]
      · rw [List.append_assoc]
        rfl
      case hf =>
        intro kv hkv j hj
        rcases List.mem_append.mp hkv with hold | hnew
        · exact hfresh kv hold j (by omega)
        · rcases List.mem_singleton.mp hnew with rfl
          exact chunkKey_ne_of_ne (by omega)

theorem savePromptInvalid_mkArg (id title text : JStr) (hid : id ≠ []) (htitle : title ≠ []) :
    savePromptInvalid (mkArg id title text) = false := by
  simp [savePromptInvalid, mkArg, JField.truthy, JField.isStr, hid, htitle]

theorem savePrompt_chunked (σ : Store) (id title text : JStr)
    (hid : id ≠ []) (htitle : title ≠ []) (hlen : MAX_CHUNK_LENGTH < text.length)
    (herr : (savePrompt σ (mkArg id title text)).err = none) :
    (savePrompt σ (mkArg id title text)).store
      = (σ.filter (fun kv => ¬ (PROMPT_KEY_PREFIX ++ id) <+: kv.1))
        ++ ([(PROMPT_KEY_PREFIX ++ id,
              .meta id title (chunkLoop text 0).length)]
        ++ chunkEntries (PROMPT_KEY_PREFIX ++ id) 0 (chunkLoop text 0)) := by
  have hfilters : storeRemove σ
      ((σ.filter (fun kv => (PROMPT_KEY_PREFIX ++ id) <+: kv.1)).map (fun kv => kv.1))
      = σ.filter (fun kv => ¬ (PROMPT_KEY_PREFIX ++ id) <+: kv.1) := by
    have h := storeRemove_map_filter σ
      (fun k => decide ((PROMPT_KEY_PREFIX ++ id) <+: k))
    rw [h]
    apply List.filter_congr
    intro kv _
    simp [decide_not]
  unfold savePrompt at herr ⊢
  rw [savePromptInvalid_mkArg id title text hid htitle] at herr ⊢
  simp only [Bool.false_eq_true, if_false, mkArg] at herr ⊢
  rw [if_neg (by omega : ¬ text.length ≤ MAX_CHUNK_LENGTH)] at herr ⊢
  rw [hfilters] at herr ⊢
  set σ1 := σ.filter (fun kv => ¬ (PROMPT_KEY_PREFIX ++ id) <+: kv.1) with hσ1
  have hσ1p : ∀ kv ∈ σ1, ¬ (PROMPT_KEY_PREFIX ++ id) <+: kv.1 := by
    intro kv hkv
    have := (List.mem_filter.mp hkv).2
    simpa using this
  by_cases hmeta : (8192 : Int) - (PROMPT_KEY_PREFIX ++ id).length
      ≤ (utf8Len (metaJson id title (chunkLoop text 0).length) : Int)
  · rw [if_pos hmeta] at herr
    exact absurd herr (by simp)
  · rw [if_neg hmeta] at herr ⊢
    have hset : storeSet σ1 (PROMPT_KEY_PREFIX ++ id)
        (.meta id title (chunkLoop text 0).length)
        = σ1 ++ [(PROMPT_KEY_PREFIX ++ id, .meta id title (chunkLoop text 0).length)] :=
      storeSet_fresh σ1 _ _
        (fun kv hkv he => hσ1p kv hkv (he ▸ List.prefix_refl _))
    rw [hset] at herr ⊢
    rw [saveChunks_ok _ _ _ _ _ ?fresh herr]
    · rw [List.append_assoc]
    case fresh =>
      intro kv hkv j _
      rcases List.mem_append.mp hkv with hold | hnew
      · intro he
        apply hσ1p kv hold
        rw [he, List.append_assoc]
        exact List.prefix_append _ _
      · rcases List.mem_singleton.mp hnew with rfl
        intro he
        have := congrArg List.length he
        simp only [List.length_append] at this
        have h1 : 0 < (natChars j).length := List.length_pos.mpr (natChars_ne_nil j)
        have h2 : CHUNK_KEY_SEPARATOR.length = 7 := by decide
        omega

set_option maxRecDepth 4000 in
theorem getAll_ce_aux (v0 v1 v2 : JVal) :
    getAllPrompts cmpZero [(js "prompt_x_chunk_0", v0),
      (js "prompt_x_chunk_0_chunk_0", v1), (js "prompt_x_chunk_0_chunk_1", v2)] = [] := rfl

theorem chunkLoop_replicate_7001 :
    chunkLoop (List.replicate 7001 'a') 0
      = [List.replicate 7000 'a', List.replicate 1 'a'] := by
  rw [chunkLoop]
  rw [dif_pos (by rw [List.length_replicate]; norm_num [MAX_CHUNK_LENGTH])]
  rw [chunkLoop]
  rw [dif_pos (by rw [List.length_replicate]; norm_num [MAX_CHUNK_LENGTH])]
  rw [chunkLoop]
  rw [dif_neg (by rw [List.length_replicate]; norm_num [MAX_CHUNK_LENGTH])]
  simp only [MAX_CHUNK_LENGTH, Nat.zero_mul, Nat.one_mul, List.drop_zero,
    List.take_replicate, List.drop_replicate]
  norm_num

theorem saveChunks_err_two (σ : Store) (b : JStr) (tr : List StOp) (c0 c1 : JStr)
    (h0 : ¬ (8192 : Int) - (b ++ CHUNK_KEY_SEPARATOR ++ natChars 0).length
        ≤ (utf8Len c0 : Int))
    (h1 : ¬ (8192 : Int) - (b ++ CHUNK_KEY_SEPARATOR ++ natChars 1).length
        ≤ (utf8Len c1 : Int)) :
    (saveChunks σ b tr [c0, c1] 0).err = none := by
  unfold saveChunks
  rw [if_neg h0]
  unfold saveChunks
  rw [if_neg (by simp only [Nat.zero_add]; exact h1)]
  rfl

theorem savePrompt_two_chunks_err (id title text c0 c1 : JStr)
    (hid : id ≠ []) (htitle : title ≠ [])
    (hlen : ¬ text.length ≤ MAX_CHUNK_LENGTH)
    (hch : chunkLoop text 0 = [c0, c1])
    (hm : ¬ (8192 : Int) - (PROMPT_KEY_PREFIX ++ id).length
        ≤ (utf8Len (metaJson id title 2) : Int))
    (h0 : ¬ (8192 : Int)
        - (PROMPT_KEY_PREFIX ++ id ++ CHUNK_KEY_SEPARATOR ++ natChars 0).length
        ≤ (utf8Len c0 : Int))
    (h1 : ¬ (8192 : Int)
        - (PROMPT_KEY_PREFIX ++ id ++ CHUNK_KEY_SEPARATOR ++ natChars 1).length
        ≤ (utf8Len c1 : Int)) :
    (savePrompt [] (mkArg id title text)).err = none := by
  unfold savePrompt
  rw [savePromptInvalid_mkArg _ _ _ hid htitle]
  simp only [Bool.false_eq_true, if_false, mkArg]
  rw [if_neg hlen]
  rw [hch]
  rw [show ([c0, c1] : List JStr).length = 2 from rfl]
  simp only [List.filter_nil, List.map_nil, storeRemove]
  rw [if_neg hm]
  exact saveChunks_err_two _ _ _ _ _ h0 h1

theorem savePrompt_rep7001_err (id title : JStr) (hid : id ≠ []) (htitle : title ≠ [])
    (hm : ¬ (8192 : Int) - (PROMPT_KEY_PREFIX ++ id).length
        ≤ (utf8Len (metaJson id title 2) : Int))
    (h0 : ¬ (8192 : Int)
        - (PROMPT_KEY_PREFIX ++ id ++ CHUNK_KEY_SEPARATOR ++ natChars 0).length
        ≤ (7000 : Int))
    (h1 : ¬ (8192 : Int)
        - (PROMPT_KEY_PREFIX ++ id ++ CHUNK_KEY_SEPARATOR ++ natChars 1).length
        ≤ (1 : Int)) :
    (savePrompt [] (mkArg id title (List.replicate 7001 'a'))).err = none := by
  have hu : ('a').utf8Size = 1 := by decide
  apply savePrompt_two_chunks_err id title _ _ _ hid htitle
  · rw [List.length_replicate]; norm_num [MAX_CHUNK_LENGTH]
  · exact chunkLoop_replicate_7001
  · exact hm
  · rw [utf8Len_replicate, hu, Nat.mul_one]; omega
  · rw [utf8Len_replicate, hu, Nat.mul_one]; omega

theorem c1_roundtrip_amended :
    ∀ (cmp : JStr → JStr → Int) (σ : Store) (id title text : JStr),
      id ≠ [] → title ≠ [] →
      ¬ CHUNK_KEY_SEPARATOR <:+: (PROMPT_KEY_PREFIX ++ id) →
      ¬ js "_chunk" <:+ (PROMPT_KEY_PREFIX ++ id) →
      MAX_CHUNK_LENGTH < text.length →
      (savePrompt σ (mkArg id title text)).err = none →
      ((⟨id, title, text⟩ : Prompt)
          ∈ getAllPrompts cmp (savePrompt σ (mkArg id title text)).store
        ∧ (chunkLoop text 0).flatten = text
        ∧ ∀ c ∈ chunkLoop text 0, c.length ≤ MAX_CHUNK_LENGTH) := by
  intro cmp σ id title text hid htitle hinf hsuf hlen herr
  have hflat : (chunkLoop text 0).flatten = text := by
    rw [chunkLoop_flatten]
    simp
  refine ⟨?_, hflat, chunkLoop_length_le text 0⟩
  rw [savePrompt_chunked σ id title text hid htitle hlen herr]
  have hpre : PROMPT_KEY_PREFIX <+: (PROMPT_KEY_PREFIX ++ id) := List.prefix_append _ _
  have hσ1p : ∀ kv ∈ σ.filter
      (fun kv => ¬ (PROMPT_KEY_PREFIX ++ id) <+: kv.1),
      ¬ (PROMPT_KEY_PREFIX ++ id) <+: kv.1 := by
    intro kv hkv
    have := (List.mem_filter.mp hkv).2
    simpa using this
  unfold getAllPrompts
  dsimp only
  rw [List.foldl_append, List.foldl_append]
  set M := List.foldl firstPassStep []
    (σ.filter (fun kv => ¬ (PROMPT_KEY_PREFIX ++ id) <+: kv.1)) with hM_def
  have hM : mapFind M (PROMPT_KEY_PREFIX ++ id) = none :=
    foldl_firstPass_none _ [] _ rfl hσ1p
  have hstep1 : List.foldl firstPassStep M
      [(PROMPT_KEY_PREFIX ++ id,
        .meta id title (chunkLoop text 0).length)]
      = M ++ [(PROMPT_KEY_PREFIX ++ id,
          ⟨some (.meta id title (chunkLoop text 0).length), []⟩)] := by
    simp only [List.foldl_cons, List.foldl_nil]
    exact firstPass_meta_step M _ id title _ hM hpre hinf hid
  rw [hstep1]
  rw [foldl_chunkEntries_step (chunkLoop text 0) 0 M (PROMPT_KEY_PREFIX ++ id)
    (.meta id title (chunkLoop text 0).length) [] hM hpre hinf hsuf]
  rw [List.filterMap_append]
  have hcnt : 0 < (chunkLoop text 0).length :=
    List.length_pos.mpr (chunkLoop_ne_nil text (by omega))
  have hrec : reconstructEntry
      ⟨some (.meta id title (chunkLoop text 0).length),
        setChunks [] 0 (chunkLoop text 0)⟩
      = some ⟨id, title, text⟩ := by
    unfold reconstructEntry
    dsimp only
    rw [if_pos hcnt]
    rw [collectFrom_eq (chunkLoop text 0) _ 0
      (fun j hj => chunkAt_setChunks_get (chunkLoop text 0) 0 [] j hj)]
    rw [hflat]
    rfl
  rw [List.mem_insertionSort]
  apply List.mem_append_right
  simp only [List.filterMap_cons, List.filterMap_nil]
  rw [hrec]
  exact List.mem_singleton.mpr rfl

set_option maxRecDepth 4000 in
theorem c1_roundtrip_counterexample :
    js "x_chunk_0" ≠ [] ∧ js "t" ≠ []
    ∧ MAX_CHUNK_LENGTH < (List.replicate 7001 'a').length
    ∧ (savePrompt []
        (mkArg (js "x_chunk_0") (js "t") (List.replicate 7001 'a'))).err = none
    ∧ getAllPrompts cmpZero
        (savePrompt []
          (mkArg (js "x_chunk_0") (js "t") (List.replicate 7001 'a'))).store = [] := by
  have herr : (savePrompt []
      (mkArg (js "x_chunk_0") (js "t") (List.replicate 7001 'a'))).err = none :=
    savePrompt_rep7001_err (js "x_chunk_0") (js "t") (by decide) (by decide)
      (by decide) (by decide) (by decide)
  refine ⟨by decide, by decide,
    by rw [List.length_replicate]; norm_num [MAX_CHUNK_LENGTH], herr, ?_⟩
  have hst := savePrompt_chunked [] (js "x_chunk_0") (js "t") (List.replicate 7001 'a')
    (by decide) (by decide)
    (by rw [List.length_replicate]; norm_num [MAX_CHUNK_LENGTH]) herr
  rw [chunkLoop_replicate_7001] at hst
  simp only [List.filter_nil, List.nil_append, chunkEntries] at hst
  rw [hst]
  rw [show PROMPT_KEY_PREFIX ++ js "x_chunk_0" = js "prompt_x_chunk_0" by decide]
  rw [show js "prompt_x_chunk_0" ++ CHUNK_KEY_SEPARATOR ++ natChars 0
      = js "prompt_x_chunk_0_chunk_0" by decide]
  rw [show js "prompt_x_chunk_0" ++ CHUNK_KEY_SEPARATOR ++ natChars 1
      = js "prompt_x_chunk_0_chunk_1" by decide]
  exact getAll_ce_aux _ _ _

set_option maxRecDepth 4000 in
theorem c1_roundtrip_amended_witness :
    (⟨js "w", js "t", List.replicate 7001 'a'⟩ : Prompt)
      ∈ getAllPrompts cmpZero
        (savePrompt [] (mkArg (js "w") (js "t") (List.replicate 7001 'a'))).store := by
  have herr := savePrompt_rep7001_err (js "w") (js "t") (by decide) (by decide)
    (by decide) (by decide) (by decide)
  exact (c1_roundtrip_amended cmpZero [] (js "w") (js "t") (List.replicate 7001 'a')
    (by decide) (by decide) (by decide) (by decide)
    (by rw [List.length_replicate]; norm_num [MAX_CHUNK_LENGTH]) herr).1
